import Mathlib

/-!
Shallow embedding of the lilypad matching core: the solver matcher of
pkg/solver/matcher.go together with the allowlist data shape of
pkg/allowlist/allowlist.go, and theorems checking the specification
claims against it. Parts of the repository that the matcher calls but
that are not present under src (the pkg/data helpers and the solver
store interface) are modelled from the specification; each such
definition says so in its doc comment.
-/

/-- Go byte-wise character comparison. Go compares strings by UTF-8 bytes;
on valid UTF-8 this order agrees with code-point order, which is what is
compared here. -/
def goCharLt (a b : Char) : Bool := a.toNat < b.toNat

/-- Go lexicographic string order (the operator < on Go strings), taken on
the character lists of the two strings. -/
def goStrLt : List Char → List Char → Bool
  | [], [] => false
  | [], _ :: _ => true
  | _ :: _, [] => false
  | a :: as, b :: bs => if goCharLt a b then true else if goCharLt b a then false else goStrLt as bs

/-- Go strings.Split with a one-character separator, on character lists.
The result never is the empty list of parts. -/
def splitOnSep (sep : Char) : List Char → List (List Char)
  | [] => [[]]
  | c :: rest =>
    match splitOnSep sep rest with
    | [] => [[]]
    | h :: t => if c = sep then [] :: h :: t else (c :: h) :: t

/-- Go strings.TrimPrefix(s, "v"): drops one leading character v when it is
present. -/
def trimPrefixV : List Char → List Char
  | 'v' :: rest => rest
  | s => s

/-- Decimal digit test, as used by Go strconv for base 10. -/
def isDigitChar (c : Char) : Bool := 48 ≤ c.toNat && c.toNat ≤ 57

/-- Numeric value of a list of decimal digits, most significant first. -/
def digitsToNat (ds : List Char) : Nat := ds.foldl (fun acc c => acc * 10 + (c.toNat - 48)) 0

/-- Go strconv.Atoi: an optional single sign followed by one or more decimal
digits; the value must fit a signed 64-bit integer, otherwise it is a range
error. The result is none exactly when Go returns a non-nil error. -/
def atoiGo (s : List Char) : Option Int :=
  let signAndDigits : Bool × List Char :=
    match s with
    | '+' :: rest => (false, rest)
    | '-' :: rest => (true, rest)
    | _ => (false, s)
  let ds := signAndDigits.2
  if ds.isEmpty then none
  else if ds.all isDigitChar then
    let v : Int := if signAndDigits.1 then -(digitsToNat ds : Int) else (digitsToNat ds : Int)
    if v < -(2 ^ 63) ∨ 2 ^ 63 - 1 < v then none else some v
  else none

/-- The segment loop of compareVersions (pkg/solver/matcher.go). The Go for
loop walks the shared indices of the two part arrays and returns early on
the first strictly ordered segment; leaving the loop at the end of the
shorter array and then comparing the total array lengths is the same as
comparing the remaining suffixes, which is how the loop is compiled to
structural recursion here. -/
def compareVersionsAux : List (List Char) → List (List Char) → Int
  | p1 :: r1, p2 :: r2 =>
    match atoiGo p1, atoiGo p2 with
    | some n1, some n2 =>
      if n1 < n2 then -1 else if n2 < n1 then 1 else compareVersionsAux r1 r2
    | _, _ =>
      if goStrLt p1 p2 then -1 else if goStrLt p2 p1 then 1 else compareVersionsAux r1 r2
  | [], [] => 0
  | [], _ :: _ => -1
  | _ :: _, [] => 1

/-- compareVersions from pkg/solver/matcher.go: strip one leading v, split on
dots, compare segment by segment as integers with a string-comparison
fallback for segments that fail integer parsing, and on a common prefix the
version with fewer segments is smaller. -/
def compareVersions (v1 v2 : String) : Int :=
  compareVersionsAux (splitOnSep '.' (trimPrefixV v1.data)) (splitOnSep '.' (trimPrefixV v2.data))

/-- Comparison of one version segment, following the wording of the spec:
compare as integers; when integer parsing fails on either side fall back to
lexicographic string comparison for that segment only. -/
def segmentCompare (a b : List Char) : Int :=
  match atoiGo a, atoiGo b with
  | some m, some n => if m < n then -1 else if n < m then 1 else 0
  | _, _ => if goStrLt a b then -1 else if goStrLt b a then 1 else 0

/-- Modelled from the spec: the version comparator described in section 4.1
of the spec, written independently of the matcher loop: walk the two segment
lists, return the first nonzero segment comparison, and on a common prefix
declare the version with fewer segments smaller. -/
def specCompareSegs : List (List Char) → List (List Char) → Int
  | [], [] => 0
  | [], _ :: _ => -1
  | _ :: _, [] => 1
  | a :: as, b :: bs => if segmentCompare a b = 0 then specCompareSegs as bs else segmentCompare a b

/-- Modelled from the spec: the full spec-side comparator over version
strings, to be compared against compareVersions. -/
def specCompareVersions (v1 v2 : String) : Int :=
  specCompareSegs (splitOnSep '.' (trimPrefixV v1.data)) (splitOnSep '.' (trimPrefixV v2.data))

/-- Modelled from the spec: the resource dimensions of an offer (section 3
of the spec); pkg/data is not under src. -/
structure ResourceSpec where
  CPU : Nat
  GPU : Nat
  RAM : Nat
deriving DecidableEq

/-- Modelled from the spec: the module reference of a job offer. The matcher
reads only the Name string, which encodes name or name:version. -/
structure ModuleConfig where
  Name : String
deriving DecidableEq

/-- Modelled from the spec: the pricing mode enum of section 3. -/
inductive PricingMode where
  | FixedPrice
  | MarketPrice
deriving DecidableEq

/-- Modelled from the spec: pricing attached to an offer; the matcher reads
only InstructionPrice. -/
structure DealPricing where
  InstructionPrice : Nat
deriving DecidableEq

/-- Modelled from the spec: the services attached to an offer (section 3,
ServiceSet): the mediator identifiers and the brokering solver. -/
structure ServiceConfig where
  Mediator : List String
  Solver : String
deriving DecidableEq

/-- Modelled from the spec: a resource offer (section 3); pkg/data is not
under src, the fields are the ones the matcher reads. -/
structure ResourceOffer where
  ID : String
  Spec : ResourceSpec
  Modules : List String
  Mode : PricingMode
  DefaultPricing : DealPricing
  Services : ServiceConfig
deriving DecidableEq

/-- Modelled from the spec: a job offer (section 3); pkg/data is not under
src, the fields are the ones the matcher reads. -/
structure JobOffer where
  ID : String
  Spec : ResourceSpec
  Module : ModuleConfig
  Mode : PricingMode
  Pricing : DealPricing
  Services : ServiceConfig
deriving DecidableEq

/-- The allowlist of pkg/allowlist: a map from module identifier to minimum
version, modelled as an association list with first-match lookup. -/
abbrev Allowlist := List (String × String)

/-- Modelled from the spec: a Deal derived from a matched pair (section 3).
The identifier derivation of data.GetDeal is abstracted as the mkID argument
of GetDeal, since pkg/data is not under src. -/
structure Deal where
  ID : String
  JobOffer : JobOffer
  ResourceOffer : ResourceOffer
deriving DecidableEq

/-- Modelled from the spec: data.GetDeal builds the deal record for a matched
pair; its identifier derivation is abstracted as mkID. -/
def GetDeal (mkID : JobOffer → ResourceOffer → String) (jobOffer : JobOffer)
    (resourceOffer : ResourceOffer) : Deal :=
  { ID := mkID jobOffer resourceOffer, JobOffer := jobOffer, ResourceOffer := resourceOffer }

/-- extractVersion from pkg/solver/matcher.go: the part after the first colon
of the module name, and the empty string when there is no second part. -/
def extractVersion (moduleConfig : ModuleConfig) : String :=
  match splitOnSep ':' moduleConfig.Name.data with
  | _ :: second :: _ => String.mk second
  | _ => ""

/-- Modelled from the spec: data.GetModuleID (pkg/data is not under src).
Per section 6 a module reference encodes identifier:version, so the
identifier is the text before the first colon. The spec describes no failing
case for identifier extraction and splitting always yields at least one
part, so the error branch is unreachable; it is kept because the matcher
handles it. -/
def GetModuleID (moduleConfig : ModuleConfig) : Except String String :=
  match splitOnSep ':' moduleConfig.Name.data with
  | idPart :: _ => Except.ok (String.mk idPart)
  | [] => Except.error "empty module reference"

/-- Modelled from the spec: data.GetMutualServices (pkg/data is not under
src); section 4.2 step 6 reads it as the intersection of the two mediator
lists. -/
def GetMutualServices (a b : List String) : List String :=
  a.filter (fun x => b.contains x)

/-- doOffersMatch from pkg/solver/matcher.go: the ordered battery of
admission checks. Spec dimensions, then the provider module restriction,
then the allowlist gate with its version minimum, then the pricing modes,
then mediators and solver. -/
def doOffersMatch (resourceOffer : ResourceOffer) (jobOffer : JobOffer) (al : Allowlist) : Bool :=
  if resourceOffer.Spec.CPU < jobOffer.Spec.CPU then false
  else if resourceOffer.Spec.GPU < jobOffer.Spec.GPU then false
  else if resourceOffer.Spec.RAM < jobOffer.Spec.RAM then false
  else if decide (0 < resourceOffer.Modules.length)
      && !(match GetModuleID jobOffer.Module with
           | Except.ok moduleID => resourceOffer.Modules.contains moduleID
           | Except.error _ => false) then false
  else
    match GetModuleID jobOffer.Module with
    | Except.error _ => false
    | Except.ok moduleID =>
      match List.lookup moduleID al with
      | none => false
      | some allowedVersion =>
        if extractVersion jobOffer.Module = "" then false
        else if compareVersions (extractVersion jobOffer.Module) allowedVersion < 0 then false
        else if resourceOffer.Mode = PricingMode.MarketPrice then false
        else if resourceOffer.Mode = PricingMode.FixedPrice ∧ jobOffer.Mode = PricingMode.FixedPrice
            ∧ jobOffer.Pricing.InstructionPrice < resourceOffer.DefaultPricing.InstructionPrice then false
        else if (GetMutualServices resourceOffer.Services.Mediator jobOffer.Services.Mediator).length = 0 then false
        else if ¬(resourceOffer.Services.Solver = jobOffer.Services.Solver) then false
        else true

/-- Concrete instance of C6: a module reference without a colon is rejected
against a listing allowlist and a resource offer that passes every other
check. -/
def noVersionJob : JobOffer :=
  { ID := "j0", Spec := ⟨1, 0, 1⟩, Module := ⟨"mod"⟩, Mode := PricingMode.FixedPrice,
    Pricing := ⟨10⟩, Services := ⟨["m1"], "sv"⟩ }

/-- Resource offer used by several concrete checks below: enough capacity,
module restriction listing mod, fixed price 5. -/
def wideResourceOffer : ResourceOffer :=
  { ID := "ra", Spec := ⟨2, 1, 2⟩, Modules := ["mod"], Mode := PricingMode.FixedPrice,
    DefaultPricing := ⟨5⟩, Services := ⟨["m1", "m2"], "sv"⟩ }

/-- Job offer used by concrete checks: requests mod version 1.1 against
minimum 1.0, budget 10. -/
def versionedJob : JobOffer :=
  { ID := "j1", Spec := ⟨1, 0, 1⟩, Module := ⟨"mod:1.1"⟩, Mode := PricingMode.FixedPrice,
    Pricing := ⟨10⟩, Services := ⟨["m1"], "sv"⟩ }

/-- Market-priced variant of the wide resource offer. -/
def marketResourceOffer : ResourceOffer :=
  { ID := "rm", Spec := ⟨2, 1, 2⟩, Modules := ["mod"], Mode := PricingMode.MarketPrice,
    DefaultPricing := ⟨5⟩, Services := ⟨["m1"], "sv"⟩ }

/-- Overpriced fixed-price variant of the wide resource offer. -/
def expensiveResourceOffer : ResourceOffer :=
  { ID := "rx", Spec := ⟨2, 1, 2⟩, Modules := ["mod"], Mode := PricingMode.FixedPrice,
    DefaultPricing := ⟨12⟩, Services := ⟨["m1"], "sv"⟩ }

/-- Market-mode job variant used for the third conjunct of C7. -/
def marketJob : JobOffer :=
  { ID := "jm", Spec := ⟨1, 0, 1⟩, Module := ⟨"mod:1.1"⟩, Mode := PricingMode.MarketPrice,
    Pricing := ⟨10⟩, Services := ⟨["m1"], "sv"⟩ }

/-- A match decision record, with the field names of MatchDecisionData from
the solver store models (JobOffer and ResourceOffer are the offer
identifiers, Deal is the attached deal identifier or empty). -/
structure MatchDecision where
  JobOffer : String
  ResourceOffer : String
  Deal : String
  Result : Bool
deriving DecidableEq

/-- Modelled from the spec: the solver store surface used by
getMatchingDeals (store.SolverStore is not under src; section 4.4 gives its
contract). The two offer lists are the ordered sequences returned by
GetResourceOffers and GetJobOffers under the NotMatched filter at pass
start, and decisions is the stored decision set in insertion order. The
container records returned by the store carry the identifier of the
contained offer, so offers are held directly. -/
structure SolverStore where
  resourceOffers : List ResourceOffer
  jobOffers : List JobOffer
  decisions : List MatchDecision
deriving DecidableEq

/-- Modelled from the spec: GetMatchDecision returns the stored decision for
the pair, none when the pair is undecided. -/
def getMatchDecision (s : SolverStore) (resourceOfferID jobOfferID : String) :
    Option MatchDecision :=
  s.decisions.find? (fun d => d.ResourceOffer == resourceOfferID && d.JobOffer == jobOfferID)

/-- Modelled from the spec: AddMatchDecision appends a decision record for
the pair. -/
def addMatchDecision (s : SolverStore) (resourceOfferID jobOfferID dealID : String)
    (result : Bool) : SolverStore :=
  ⟨s.resourceOffers, s.jobOffers,
    s.decisions ++ [⟨jobOfferID, resourceOfferID, dealID, result⟩]⟩

/-- Number of stored decisions for one pair; used to state that a pass
writes no new decision for an already decided pair. -/
def countPair (s : SolverStore) (resourceOfferID jobOfferID : String) : Nat :=
  (s.decisions.filter
    (fun d => d.ResourceOffer == resourceOfferID && d.JobOffer == jobOfferID)).length

/-- Price order on resource offers, the Less of ListOfResourceOffers in
pkg/solver/matcher.go stated inclusively. -/
def priceLE (a b : ResourceOffer) : Prop :=
  a.DefaultPricing.InstructionPrice ≤ b.DefaultPricing.InstructionPrice

instance : DecidableRel priceLE := fun _ _ => Nat.decLe _ _

instance : IsTotal ResourceOffer priceLE := ⟨fun _ _ => Nat.le_total _ _⟩

instance : IsTrans ResourceOffer priceLE := ⟨fun _ _ _ => Nat.le_trans⟩

/-- Documented contract of the Go call sort.Sort(ListOfResourceOffers(...))
in getMatchingDeals: the output is a permutation of the input that is
ordered by DefaultPricing.InstructionPrice. The predicate over-approximates
the concrete implementation (it admits tie orders the implementation never
produces on a given input), so it is used only as a universal hypothesis
that makes the pass theorems cover the implementation; the implementation
itself is translated below as sortSortGo. -/
def GoSortSpec (sortFn : List ResourceOffer → List ResourceOffer) : Prop :=
  ∀ l, (sortFn l).Perm l ∧ (sortFn l).Pairwise priceLE

/-- Stable conforming sort implementation, used to evaluate the pass on
concrete stores. -/
def goodSort : List ResourceOffer → List ResourceOffer := List.insertionSort priceLE

/-- Out-of-bounds placeholder for array reads in the sort translation; the
in-bounds traces of the sort never read it. -/
def zeroResourceOffer : ResourceOffer :=
  ⟨"", ⟨0, 0, 0⟩, [], PricingMode.FixedPrice, ⟨0⟩, ⟨[], ""⟩⟩

/-- Array read of the slice being sorted. -/
def roGet (xs : Array ResourceOffer) (i : Nat) : ResourceOffer :=
  xs.getD i zeroResourceOffer

/-- Less of ListOfResourceOffers (pkg/solver/matcher.go lines 25-29), read
on the array being sorted. -/
def roLess (xs : Array ResourceOffer) (i j : Nat) : Bool :=
  (roGet xs i).DefaultPricing.InstructionPrice
    < (roGet xs j).DefaultPricing.InstructionPrice

/-- Swap of ListOfResourceOffers on the array being sorted. -/
def roSwap (xs : Array ResourceOffer) (i j : Nat) : Array ResourceOffer :=
  let vi := roGet xs i
  let vj := roGet xs j
  (xs.setD i vj).setD j vi

/-- Bit length with structural fuel, so that it evaluates in the kernel. -/
def bitsLenAux : Nat → Nat → Nat
  | 0, _ => 0
  | fuel+1, n => if n = 0 then 0 else bitsLenAux fuel (n / 2) + 1

/-- math/bits.Len on the sizes the sort meets (below two to the 64). -/
def bitsLen (n : Nat) : Nat := bitsLenAux 64 n

/-- The inner shifting loop of insertionSort in the Go sort package
(zsortinterface.go): while j is above a and the element is less than its
predecessor, swap and step left. The argument is the current index j. -/
def insertionSortInnerGo (a : Nat) : Nat → Array ResourceOffer → Array ResourceOffer
  | 0, xs => xs
  | j+1, xs =>
    if a < j+1 && roLess xs (j+1) j then insertionSortInnerGo a j (roSwap xs (j+1) j)
    else xs

/-- The outer loop of insertionSort, i from a+1 below b, with fuel b. -/
def insertionSortOuterGo (a b : Nat) : Nat → Nat → Array ResourceOffer →
    Array ResourceOffer
  | 0, _, xs => xs
  | fuel+1, i, xs =>
    if i < b then insertionSortOuterGo a b fuel (i+1) (insertionSortInnerGo a i xs)
    else xs

/-- insertionSort of the Go sort package: sorts data[a:b] stably. -/
def insertionSortGo (xs : Array ResourceOffer) (a b : Nat) : Array ResourceOffer :=
  insertionSortOuterGo a b b (a+1) xs

/-- The descent loop of siftDown of the Go sort package; the fuel bounds the
number of levels walked. -/
def siftDownAuxGo (hi first : Nat) : Nat → Nat → Array ResourceOffer →
    Array ResourceOffer
  | 0, _, xs => xs
  | fuel+1, root, xs =>
    let child := 2 * root + 1
    if hi ≤ child then xs
    else
      let child :=
        if child + 1 < hi && roLess xs (first + child) (first + child + 1)
        then child + 1 else child
      if !(roLess xs (first + root) (first + child)) then xs
      else siftDownAuxGo hi first fuel child (roSwap xs (first + root) (first + child))

/-- siftDown of the Go sort package. -/
def siftDownGo (xs : Array ResourceOffer) (lo hi first : Nat) : Array ResourceOffer :=
  siftDownAuxGo hi first (hi + 1) lo xs

/-- The heap construction loop of heapSort: root index from (hi-1)/2 down to
zero, the argument counting the remaining indices. -/
def heapBuildGo (hi first : Nat) : Nat → Array ResourceOffer → Array ResourceOffer
  | 0, xs => xs
  | n+1, xs => heapBuildGo hi first n (siftDownGo xs n hi first)

/-- The pop loop of heapSort: i from hi-1 down to zero, swapping the maximum
behind the heap and sifting the new root. -/
def heapPopGo (first : Nat) : Nat → Array ResourceOffer → Array ResourceOffer
  | 0, xs => xs
  | n+1, xs => heapPopGo first n (siftDownGo (roSwap xs first (first + n)) 0 n first)

/-- heapSort of the Go sort package, the fallback when the pivot budget is
exhausted. -/
def heapSortGo (xs : Array ResourceOffer) (a b : Nat) : Array ResourceOffer :=
  let hi := b - a
  heapPopGo a hi (heapBuildGo hi a ((hi - 1) / 2 + 1) xs)

/-- order2 of the Go sort package: the two indices in nondecreasing element
order, together with the updated swap count. -/
def order2Go (xs : Array ResourceOffer) (a b swaps : Nat) : Nat × Nat × Nat :=
  if roLess xs b a then (b, a, swaps + 1) else (a, b, swaps)

/-- median of the Go sort package: the index holding the median of the three
elements, with the swap count threaded through the three order2 calls. -/
def medianGo (xs : Array ResourceOffer) (a b c swaps : Nat) : Nat × Nat :=
  let p1 := order2Go xs a b swaps
  let p2 := order2Go xs p1.2.1 c p1.2.2
  let p3 := order2Go xs p1.1 p2.1 p2.2.2
  (p3.2.1, p3.2.2)

/-- medianAdjacent of the Go sort package. -/
def medianAdjacentGo (xs : Array ResourceOffer) (a swaps : Nat) : Nat × Nat :=
  medianGo xs (a - 1) a (a + 1) swaps

/-- The sortedness hint of choosePivot in the Go sort package. -/
inductive SortedHint where
  | increasingHint
  | decreasingHint
  | unknownHint
deriving DecidableEq

/-- choosePivot of the Go sort package: a static pivot below eight elements,
the median of three up to fifty, the Tukey ninther beyond, and a sortedness
hint read off the number of swaps the median selection performed (zero means
increasing, twelve means decreasing). -/
def choosePivotGo (xs : Array ResourceOffer) (a b : Nat) : Nat × SortedHint :=
  let l := b - a
  let i := a + l / 4 * 1
  let j := a + l / 4 * 2
  let k := a + l / 4 * 3
  if 8 ≤ l then
    let q :=
      if 50 ≤ l then
        let p1 := medianAdjacentGo xs i 0
        let p2 := medianAdjacentGo xs j p1.2
        let p3 := medianAdjacentGo xs k p2.2
        (p1.1, p2.1, p3.1, p3.2)
      else (i, j, k, 0)
    let pm := medianGo xs q.1 q.2.1 q.2.2.1 q.2.2.2
    if pm.2 = 0 then (pm.1, SortedHint.increasingHint)
    else if pm.2 = 12 then (pm.1, SortedHint.decreasingHint)
    else (pm.1, SortedHint.unknownHint)
  else (j, SortedHint.increasingHint)

/-- The ascending scan of partialInsertionSort: advance i while the element
is not less than its predecessor, returning the first descent or b. -/
def pisScanGo (b : Nat) : Nat → Nat → Array ResourceOffer → Nat
  | 0, i, _ => i
  | fuel+1, i, xs =>
    if i < b && !(roLess xs i (i - 1)) then pisScanGo b fuel (i+1) xs else i

/-- The left shift of partialInsertionSort: from the given index down while
less than the predecessor, stopping at index one. -/
def pisShiftLeftGo : Nat → Array ResourceOffer → Array ResourceOffer
  | 0, xs => xs
  | j+1, xs =>
    if !(roLess xs (j+1) j) then xs else pisShiftLeftGo j (roSwap xs (j+1) j)

/-- The right shift of partialInsertionSort: from the given index up below b
while less than the predecessor. -/
def pisShiftRightGo (b : Nat) : Nat → Nat → Array ResourceOffer → Array ResourceOffer
  | 0, _, xs => xs
  | fuel+1, j, xs =>
    if j < b then
      (if !(roLess xs j (j - 1)) then xs
       else pisShiftRightGo b fuel (j+1) (roSwap xs j (j - 1)))
    else xs

/-- The step loop of partialInsertionSort: at most five adjacent
out-of-order pairs are repaired; on slices shorter than fifty nothing is
shifted and the answer is immediately false. -/
def pisStepsGo (a b : Nat) : Nat → Nat → Array ResourceOffer →
    Bool × Array ResourceOffer
  | 0, _, xs => (false, xs)
  | steps+1, i, xs =>
    let i2 := pisScanGo b b i xs
    if i2 = b then (true, xs)
    else if b - a < 50 then (false, xs)
    else
      let xs := roSwap xs i2 (i2 - 1)
      let xs := if 2 ≤ i2 - a then pisShiftLeftGo (i2 - 1) xs else xs
      let xs := if 2 ≤ b - i2 then pisShiftRightGo b b (i2 + 1) xs else xs
      pisStepsGo a b steps i2 xs

/-- partialInsertionSort of the Go sort package; true when the slice turned
out sorted. -/
def partialInsertionSortGo (xs : Array ResourceOffer) (a b : Nat) :
    Bool × Array ResourceOffer :=
  pisStepsGo a b 5 (a + 1) xs

/-- The swap loop of reverseRange of the Go sort package. -/
def reverseRangeAuxGo : Nat → Nat → Nat → Array ResourceOffer → Array ResourceOffer
  | 0, _, _, xs => xs
  | fuel+1, i, j, xs =>
    if i < j then reverseRangeAuxGo fuel (i+1) (j-1) (roSwap xs i j) else xs

/-- reverseRange of the Go sort package. -/
def reverseRangeGo (xs : Array ResourceOffer) (a b : Nat) : Array ResourceOffer :=
  reverseRangeAuxGo b a (b - 1) xs

/-- One step of the xorshift generator of the Go sort package, on the 64-bit
state (shift left 13, right 7, left 17, each folded back into 64 bits). -/
def xorshiftNextGo (r : Nat) : Nat :=
  let r := (r ^^^ (r <<< 13)) % 2 ^ 64
  let r := r ^^^ (r >>> 7)
  (r ^^^ (r <<< 17)) % 2 ^ 64

/-- breakPatterns of the Go sort package: three pseudo-random swaps around
the middle of the slice, the generator seeded with the slice length and the
draw reduced modulo the next power of two, then brought below the length. -/
def breakPatternsGo (xs : Array ResourceOffer) (a b : Nat) : Array ResourceOffer :=
  let length := b - a
  if 8 ≤ length then
    let modulus := 2 ^ bitsLen length
    let idx := a + length / 4 * 2 - 1
    let r1 := xorshiftNextGo length
    let o1 := (let t := r1 &&& (modulus - 1); if length ≤ t then t - length else t)
    let xs := roSwap xs (idx - 1 + 0) (a + o1)
    let r2 := xorshiftNextGo r1
    let o2 := (let t := r2 &&& (modulus - 1); if length ≤ t then t - length else t)
    let xs := roSwap xs (idx - 1 + 1) (a + o2)
    let r3 := xorshiftNextGo r2
    let o3 := (let t := r3 &&& (modulus - 1); if length ≤ t then t - length else t)
    roSwap xs (idx - 1 + 2) (a + o3)
  else xs

/-- The left scan of partition of the Go sort package: advance i over
elements less than the pivot held at index a, while i stays at most j. -/
def partScanLeftGo (xs : Array ResourceOffer) (a j : Nat) : Nat → Nat → Nat
  | 0, i => i
  | fuel+1, i => if i ≤ j && roLess xs i a then partScanLeftGo xs a j fuel (i+1) else i

/-- The right scan of partition: move j left over elements not less than the
pivot held at index a, while i stays at most j. -/
def partScanRightGo (xs : Array ResourceOffer) (a i : Nat) : Nat → Nat → Nat
  | 0, j => j
  | fuel+1, j =>
    if i ≤ j && !(roLess xs j a) then partScanRightGo xs a i fuel (j-1) else j

/-- The exchange loop of partition after the first crossing pair was
swapped: scan, stop when the indices cross, otherwise swap and close in. -/
def partitionLoopGo (a b : Nat) : Nat → Nat → Nat → Array ResourceOffer →
    Nat × Array ResourceOffer
  | 0, _, j, xs => (j, xs)
  | fuel+1, i, j, xs =>
    let i2 := partScanLeftGo xs a j b i
    let j2 := partScanRightGo xs a i2 b j
    if j2 < i2 then (j2, xs)
    else partitionLoopGo a b fuel (i2+1) (j2-1) (roSwap xs i2 j2)

/-- partition of the Go sort package: swap the pivot to index a, scan from
both ends; when the first two scans already cross, the slice was
partitioned; either way the pivot is swapped to the crossing point.
Returns the pivot position, the array, and the already-partitioned flag. -/
def partitionGo (xs : Array ResourceOffer) (a b pivot : Nat) :
    Nat × Array ResourceOffer × Bool :=
  let xs := roSwap xs a pivot
  let i := partScanLeftGo xs a (b - 1) b (a + 1)
  let j := partScanRightGo xs a i b (b - 1)
  if j < i then (j, roSwap xs j a, true)
  else
    let xs2 := roSwap xs i j
    let p := partitionLoopGo a b b (i + 1) (j - 1) xs2
    (p.1, roSwap p.2 p.1 a, false)

/-- The scans of partitionEqual of the Go sort package: i advances over
elements not greater than the pivot at index a, j retreats over strictly
greater ones. -/
def peqScanLeftGo (xs : Array ResourceOffer) (a j : Nat) : Nat → Nat → Nat
  | 0, i => i
  | fuel+1, i =>
    if i ≤ j && !(roLess xs a i) then peqScanLeftGo xs a j fuel (i+1) else i

def peqScanRightGo (xs : Array ResourceOffer) (a i : Nat) : Nat → Nat → Nat
  | 0, j => j
  | fuel+1, j => if i ≤ j && roLess xs a j then peqScanRightGo xs a i fuel (j-1) else j

/-- The exchange loop of partitionEqual; returns the first index after the
run of elements equal to the pivot. -/
def partitionEqualLoopGo (a b : Nat) : Nat → Nat → Nat → Array ResourceOffer →
    Nat × Array ResourceOffer
  | 0, i, _, xs => (i, xs)
  | fuel+1, i, j, xs =>
    let i2 := peqScanLeftGo xs a j b i
    let j2 := peqScanRightGo xs a i2 b j
    if j2 < i2 then (i2, xs)
    else partitionEqualLoopGo a b fuel (i2+1) (j2-1) (roSwap xs i2 j2)

/-- partitionEqual of the Go sort package. -/
def partitionEqualGo (xs : Array ResourceOffer) (a b pivot : Nat) :
    Nat × Array ResourceOffer :=
  let xs := roSwap xs a pivot
  partitionEqualLoopGo a b b (a + 1) (b - 1) xs

/-- pdqsort of the Go sort package (zsortinterface.go, the algorithm behind
sort.Sort since Go 1.19). The outer for loop is the tail recursion carrying
the wasBalanced and wasPartitioned flags; a recursive call into the shorter
side starts with both flags true, as a fresh Go call does. The fuel bounds
only the nesting depth, which is at most the slice length since every inner
call works on a strictly shorter range, so it is never exhausted when the
top call supplies the length plus a margin. -/
def pdqsortGo : Nat → Array ResourceOffer → Nat → Nat → Nat → Bool → Bool →
    Array ResourceOffer
  | 0, xs, _, _, _, _, _ => xs
  | fuel+1, xs, a, b, limit, wasBalanced, wasPartitioned =>
    let length := b - a
    if length ≤ 12 then insertionSortGo xs a b
    else if limit = 0 then heapSortGo xs a b
    else
      let q := if !wasBalanced then (breakPatternsGo xs a b, limit - 1) else (xs, limit)
      let xs := q.1
      let limit := q.2
      let pv := choosePivotGo xs a b
      let r :=
        if pv.2 = SortedHint.decreasingHint then
          (reverseRangeGo xs a b, (b - 1) - (pv.1 - a), SortedHint.increasingHint)
        else (xs, pv.1, pv.2)
      let xs := r.1
      let pivot := r.2.1
      let hint := r.2.2
      let ps :=
        if wasBalanced && wasPartitioned && hint = SortedHint.increasingHint then
          partialInsertionSortGo xs a b
        else (false, xs)
      if ps.1 then ps.2
      else
        let xs := ps.2
        if 0 < a && !(roLess xs (a - 1) pivot) then
          let pe := partitionEqualGo xs a b pivot
          pdqsortGo fuel pe.2 pe.1 b limit wasBalanced wasPartitioned
        else
          let pt := partitionGo xs a b pivot
          let mid := pt.1
          let xs := pt.2.1
          let alreadyPartitioned := pt.2.2
          let leftLen := mid - a
          let rightLen := b - mid
          let balanceThreshold := length / 8
          let wasBalanced2 := decide (balanceThreshold ≤ min leftLen rightLen)
          if leftLen < rightLen then
            pdqsortGo fuel (pdqsortGo fuel xs a mid limit true true) (mid + 1) b
              limit wasBalanced2 alreadyPartitioned
          else
            pdqsortGo fuel (pdqsortGo fuel xs (mid + 1) b limit true true) a mid
              limit wasBalanced2 alreadyPartitioned

/-- sort.Sort(ListOfResourceOffers(matchingResourceOffers)) as the Go
standard library executes it: the call at pkg/solver/matcher.go line 249
dispatches to pdqsort with the pivot budget bits.Len(n). Slices of at most
one element are returned unchanged, as in Go. -/
def sortSortGo (l : List ResourceOffer) : List ResourceOffer :=
  let n := l.length
  if n ≤ 1 then l
  else (pdqsortGo (n + 16) l.toArray 0 n (bitsLen n) true true).toList

/-- The inner loop of getMatchingDeals (pkg/solver/matcher.go) over the
resource offers for one job offer: an already decided pair is skipped, a
pair failing the predicate immediately receives a negative decision, and a
pair passing it is collected as a candidate. The compatibility predicate is
passed as the argument f, instantiated with doOffersMatch in the actual
pass; this makes the no-re-evaluation property expressible. -/
def processResourceOffers (f : ResourceOffer → JobOffer → Allowlist → Bool) (al : Allowlist)
    (jobOffer : JobOffer) :
    List ResourceOffer → SolverStore → List ResourceOffer × SolverStore
  | [], s => ([], s)
  | resourceOffer :: rest, s =>
    match getMatchDecision s resourceOffer.ID jobOffer.ID with
    | some _ => processResourceOffers f al jobOffer rest s
    | none =>
      if f resourceOffer jobOffer al then
        let r := processResourceOffers f al jobOffer rest s
        (resourceOffer :: r.1, r.2)
      else
        processResourceOffers f al jobOffer rest
          (addMatchDecision s resourceOffer.ID jobOffer.ID "" false)

/-- The per-job-offer step of getMatchingDeals: collect candidates, and when
some exist sort them by price with the conforming sort function, build the
deal from the head, then persist a positive decision for every candidate,
attaching the deal identifier exactly when the candidate identifier equals
the head identifier. The empty case after the sort cannot occur for a
conforming sort function, since Go sorts the non-empty slice in place. -/
def processJobOffer (f : ResourceOffer → JobOffer → Allowlist → Bool)
    (sortFn : List ResourceOffer → List ResourceOffer)
    (mkID : JobOffer → ResourceOffer → String) (al : Allowlist) (jobOffer : JobOffer)
    (resourceOffers : List ResourceOffer) (s : SolverStore) : List Deal × SolverStore :=
  let r := processResourceOffers f al jobOffer resourceOffers s
  if 0 < r.1.length then
    match sortFn r.1 with
    | [] => ([], r.2)
    | cheapestResourceOffer :: restSorted =>
      let deal := GetDeal mkID jobOffer cheapestResourceOffer
      ([deal],
        (cheapestResourceOffer :: restSorted).foldl
          (fun st m =>
            addMatchDecision st m.ID jobOffer.ID
              (if cheapestResourceOffer.ID = m.ID then deal.ID else "") true) r.2)
  else ([], r.2)

/-- The outer loop of getMatchingDeals over the job offers, accumulating the
created deals in visit order. -/
def runJobOffers (f : ResourceOffer → JobOffer → Allowlist → Bool)
    (sortFn : List ResourceOffer → List ResourceOffer)
    (mkID : JobOffer → ResourceOffer → String) (al : Allowlist)
    (resourceOffers : List ResourceOffer) :
    List JobOffer → SolverStore → List Deal × SolverStore
  | [], s => ([], s)
  | jobOffer :: rest, s =>
    let r1 := processJobOffer f sortFn mkID al jobOffer resourceOffers s
    let r2 := runJobOffers f sortFn mkID al resourceOffers rest r1.2
    (r1.1 ++ r2.1, r2.2)

/-- getMatchingDeals from pkg/solver/matcher.go with the compatibility
predicate as a parameter: load the two offer lists once at pass start, run
the matching loops, and return the created deals together with the updated
store. -/
def getMatchingDealsWith (f : ResourceOffer → JobOffer → Allowlist → Bool)
    (sortFn : List ResourceOffer → List ResourceOffer)
    (mkID : JobOffer → ResourceOffer → String) (db : SolverStore) (al : Allowlist) :
    List Deal × SolverStore :=
  runJobOffers f sortFn mkID al db.resourceOffers db.jobOffers db

/-- getMatchingDeals from pkg/solver/matcher.go: the pass with the real
compatibility predicate doOffersMatch. The sort function stands for the
unstable sort.Sort call and the deal identifier derivation stands for the
hashing inside data.GetDeal. -/
def getMatchingDeals (sortFn : List ResourceOffer → List ResourceOffer)
    (mkID : JobOffer → ResourceOffer → String) (db : SolverStore) (al : Allowlist) :
    List Deal × SolverStore :=
  getMatchingDealsWith doOffersMatch sortFn mkID db al

/-- Deal identifier maker used on concrete stores. -/
def mkDealID (jobOffer : JobOffer) (resourceOffer : ResourceOffer) : String :=
  String.append (String.append jobOffer.ID "-") resourceOffer.ID

/-- Predicate differing from doOffersMatch exactly on the pair (ra, j1),
used to instantiate the no-re-evaluation theorem on a concrete store. -/
def flippedOnPair : ResourceOffer → JobOffer → Allowlist → Bool := fun r j al =>
  if r.ID = "ra" ∧ j.ID = "j1" then !(doOffersMatch r j al) else doOffersMatch r j al

/-- Store holding one pre-existing negative decision for the pair (ra, j1). -/
def decidedStore : SolverStore :=
  ⟨[wideResourceOffer], [versionedJob], [⟨"j1", "ra", "", false⟩]⟩

/-- Middle-priced compatible resource offer (price 7) for concrete checks. -/
def midResourceOffer : ResourceOffer :=
  { ID := "rc", Spec := ⟨2, 1, 2⟩, Modules := ["mod"], Mode := PricingMode.FixedPrice,
    DefaultPricing := ⟨7⟩, Services := ⟨["m1"], "sv"⟩ }

/-- Store with two compatible candidates of distinct prices for one job. -/
def c4Store : SolverStore := ⟨[wideResourceOffer, midResourceOffer], [versionedJob], []⟩

/-- Resource offer template for the thirteen-candidate store: ample
capacity, module mod, the given fixed price. -/
def priceOffer (offerID : String) (p : Nat) : ResourceOffer :=
  ⟨offerID, ⟨2, 1, 2⟩, ["mod"], PricingMode.FixedPrice, ⟨p⟩, ⟨["m1"], "sv"⟩⟩

/-- Thirteen compatible resource offers in store order; the two price-one
offers t00 and t01 are tied at the minimum, t00 first. Thirteen elements
put the sort.Sort call on the partitioning path of pdqsort instead of the
stable insertion-sort path it takes up to twelve elements. -/
def thirteenOffers : List ResourceOffer :=
  [priceOffer "t00" 1, priceOffer "t01" 1, priceOffer "t02" 2, priceOffer "t03" 2,
   priceOffer "t04" 2, priceOffer "t05" 2, priceOffer "t06" 3, priceOffer "t07" 2,
   priceOffer "t08" 2, priceOffer "t09" 4, priceOffer "t10" 2, priceOffer "t11" 9,
   priceOffer "t12" 5]

/-- Job offer affording all thirteen candidates (budget twenty). -/
def richJob : JobOffer :=
  { ID := "jq", Spec := ⟨1, 0, 1⟩, Module := ⟨"mod:1.1"⟩, Mode := PricingMode.FixedPrice,
    Pricing := ⟨20⟩, Services := ⟨["m1"], "sv"⟩ }

/-- Store with the thirteen candidates and the one job offer. -/
def thirteenStore : SolverStore := ⟨thirteenOffers, [richJob], []⟩

/-- Second job offer identical in requirements to the first. -/
def secondJob : JobOffer :=
  { ID := "j2", Spec := ⟨1, 0, 1⟩, Module := ⟨"mod:1.1"⟩, Mode := PricingMode.FixedPrice,
    Pricing := ⟨10⟩, Services := ⟨["m1"], "sv"⟩ }

/-- Store with one resource offer and two job offers it satisfies. -/
def doubleStore : SolverStore := ⟨[wideResourceOffer], [versionedJob, secondJob], []⟩

theorem goStrLt_irrefl : ∀ l : List Char, goStrLt l l = false := by
  intro l
  induction l with
  | nil => rfl
  | cons a as ih =>
    simp only [goStrLt, goCharLt]
    simp [ih]

theorem goStrLt_asymm : ∀ l1 l2 : List Char, goStrLt l1 l2 = true → goStrLt l2 l1 = false := by
  intro l1
  induction l1 with
  | nil => intro l2 _; cases l2 <;> rfl
  | cons a as ih =>
    intro l2 h
    cases l2 with
    | nil => simp [goStrLt] at h
    | cons b bs =>
      simp only [goStrLt, goCharLt] at h ⊢
      rcases Nat.lt_trichotomy a.toNat b.toNat with hlt | heq | hgt
      · simp [hlt, Nat.lt_asymm hlt]
      · simp [heq, Nat.lt_irrefl] at h ⊢
        exact ih bs h
      · simp [hgt, Nat.lt_asymm hgt] at h

theorem compareVersionsAux_self : ∀ l : List (List Char), compareVersionsAux l l = 0 := by
  intro l
  induction l with
  | nil => rfl
  | cons p r ih =>
    simp only [compareVersionsAux]
    cases h : atoiGo p with
    | some n => simp [h, ih]
    | none => simp [h, goStrLt_irrefl, ih]

theorem compareVersionsAux_antisymm :
    ∀ l1 l2 : List (List Char), compareVersionsAux l1 l2 = -(compareVersionsAux l2 l1) := by
  intro l1
  induction l1 with
  | nil => intro l2; cases l2 <;> rfl
  | cons p1 r1 ih =>
    intro l2
    cases l2 with
    | nil => rfl
    | cons p2 r2 =>
      simp only [compareVersionsAux]
      cases h1 : atoiGo p1 with
      | some n1 =>
        cases h2 : atoiGo p2 with
        | some n2 =>
          rcases Int.lt_trichotomy n1 n2 with hlt | heq | hgt
          · simp [hlt, Int.lt_asymm hlt]
          · simp [heq, Int.lt_irrefl, ih r2]
          · simp [hgt, Int.lt_asymm hgt]
        | none =>
          cases hs : goStrLt p1 p2 with
          | true => simp [hs, goStrLt_asymm _ _ hs]
          | false =>
            cases hs2 : goStrLt p2 p1 with
            | true => simp [hs, hs2]
            | false => simp [hs, hs2, ih r2]
      | none =>
        cases hs : goStrLt p1 p2 with
        | true => simp [hs, goStrLt_asymm _ _ hs]
        | false =>
          cases hs2 : goStrLt p2 p1 with
          | true => simp [hs, hs2]
          | false => simp [hs, hs2, ih r2]

theorem compareVersionsAux_eq_spec :
    ∀ l1 l2 : List (List Char), compareVersionsAux l1 l2 = specCompareSegs l1 l2 := by
  intro l1
  induction l1 with
  | nil => intro l2; cases l2 <;> rfl
  | cons p1 r1 ih =>
    intro l2
    cases l2 with
    | nil => rfl
    | cons p2 r2 =>
      simp only [compareVersionsAux, specCompareSegs, segmentCompare]
      cases h1 : atoiGo p1 with
      | some n1 =>
        cases h2 : atoiGo p2 with
        | some n2 =>
          rcases Int.lt_trichotomy n1 n2 with hlt | heq | hgt
          · simp [hlt, Int.lt_asymm hlt]
          · simp [heq, Int.lt_irrefl, ih r2]
          · simp [hgt, Int.lt_asymm hgt, Int.ne_of_gt hgt]
        | none =>
          cases hs : goStrLt p1 p2 with
          | true => simp [hs]
          | false =>
            cases hs2 : goStrLt p2 p1 with
            | true => simp [hs, hs2]
            | false => simp [hs, hs2, ih r2]
      | none =>
        cases hs : goStrLt p1 p2 with
        | true => simp [hs]
        | false =>
          cases hs2 : goStrLt p2 p1 with
          | true => simp [hs, hs2]
          | false => simp [hs, hs2, ih r2]

/-- C8: the version comparator strips an optional leading v, splits on dots,
compares shared segments left to right as integers, falls back to
lexicographic string comparison exactly for a segment where integer parsing
fails on either side and then continues with later segments, and when all
shared segments are equal it declares the version with fewer segments
smaller; this is stated as agreement with the spec-side comparator together
with the three concrete evaluations named by the claim. -/
theorem claim_C8 :
    (∀ a b : String, compareVersions a b = specCompareVersions a b)
    ∧ compareVersions "v1.2" "v1.10" < 0
    ∧ compareVersions "1.2" "1.2.0" < 0
    ∧ compareVersions "1.2.3" "1.2.3" = 0 := by
  refine ⟨fun a b => ?_, by decide, by decide, by decide⟩
  unfold compareVersions specCompareVersions
  exact compareVersionsAux_eq_spec _ _

/-- C9 counterexample: the induced order of compareVersions is not
transitive. Concretely 9 is below 10 (integer comparison), 10 is below 1a
(string fallback), yet 9 is strictly above 1a (string fallback), so the
claimed transitivity fails at these three version strings. -/
theorem claim_C9_counterexample :
    compareVersions "9" "10" ≤ 0 ∧ compareVersions "10" "1a" ≤ 0
    ∧ 0 < compareVersions "9" "1a" := by
  refine ⟨by decide, by decide, by decide⟩

/-- C9 amended: compareVersions is reflexive (compare(a, a) = 0) and
antisymmetric (compare(a, b) = -compare(b, a)); the transitivity part of the
claim is dropped, since it fails on the counterexample 9, 10, 1a. -/
theorem claim_C9_amended :
    ∀ a b : String, compareVersions a a = 0 ∧ compareVersions a b = -(compareVersions b a) := by
  intro a b
  constructor
  · unfold compareVersions; exact compareVersionsAux_self _
  · unfold compareVersions; exact compareVersionsAux_antisymm _ _

/-- C6: a job offer whose module reference has no version segment (the part
after the first colon is empty, in particular when there is no colon at all)
never matches: the predicate answers no-match against every resource offer
and every allowlist. The predicate is a total boolean function, so no pass
is aborted by such a reference. -/
theorem claim_C6 :
    ∀ (resourceOffer : ResourceOffer) (jobOffer : JobOffer) (al : Allowlist),
    extractVersion jobOffer.Module = "" →
    doOffersMatch resourceOffer jobOffer al = false := by
  intro resourceOffer jobOffer al hv
  simp only [doOffersMatch]
  repeat' split
  all_goals simp_all

theorem claim_C6_witness :
    extractVersion noVersionJob.Module = ""
    ∧ doOffersMatch wideResourceOffer noVersionJob [("mod", "0.1")] = false :=
  ⟨by decide, claim_C6 wideResourceOffer noVersionJob [("mod", "0.1")] (by decide)⟩

set_option maxHeartbeats 1000000 in
/-- C7: a MarketPrice resource offer never matches; when both sides are
FixedPrice the pair is rejected whenever the resource price exceeds the job
budget; and in the one remaining mode combination (FixedPrice provider,
MarketPrice job) the outcome is independent of both instruction prices, so
the pair reaches the mediator and solver checks without any price
comparison. -/
theorem claim_C7 :
    (∀ (resourceOffer : ResourceOffer) (jobOffer : JobOffer) (al : Allowlist),
      resourceOffer.Mode = PricingMode.MarketPrice →
      doOffersMatch resourceOffer jobOffer al = false)
    ∧ (∀ (resourceOffer : ResourceOffer) (jobOffer : JobOffer) (al : Allowlist),
      resourceOffer.Mode = PricingMode.FixedPrice → jobOffer.Mode = PricingMode.FixedPrice →
      jobOffer.Pricing.InstructionPrice < resourceOffer.DefaultPricing.InstructionPrice →
      doOffersMatch resourceOffer jobOffer al = false)
    ∧ (∀ (resourceOffer : ResourceOffer) (jobOffer : JobOffer) (al : Allowlist) (p q : Nat),
      resourceOffer.Mode = PricingMode.FixedPrice → jobOffer.Mode = PricingMode.MarketPrice →
      doOffersMatch
        ⟨resourceOffer.ID, resourceOffer.Spec, resourceOffer.Modules, resourceOffer.Mode,
          ⟨p⟩, resourceOffer.Services⟩
        ⟨jobOffer.ID, jobOffer.Spec, jobOffer.Module, jobOffer.Mode, ⟨q⟩, jobOffer.Services⟩ al
      = doOffersMatch resourceOffer jobOffer al) := by
  refine ⟨?_, ?_, ?_⟩
  · intro resourceOffer jobOffer al h
    simp only [doOffersMatch]
    repeat' split
    all_goals simp_all
  · intro resourceOffer jobOffer al hr hj hp
    simp only [doOffersMatch]
    repeat' split
    all_goals simp_all
  · intro resourceOffer jobOffer al p q hr hj
    obtain ⟨ri, rs, rm, rmo, rp, rsv⟩ := resourceOffer
    obtain ⟨ji, js, jm, jmo, jp, jsv⟩ := jobOffer
    simp only at hr hj
    subst hr
    subst hj
    simp [doOffersMatch]

theorem claim_C7_witness :
    doOffersMatch marketResourceOffer versionedJob [("mod", "1.0")] = false
    ∧ doOffersMatch expensiveResourceOffer versionedJob [("mod", "1.0")] = false
    ∧ doOffersMatch
        ⟨wideResourceOffer.ID, wideResourceOffer.Spec, wideResourceOffer.Modules,
          wideResourceOffer.Mode, ⟨77⟩, wideResourceOffer.Services⟩
        ⟨marketJob.ID, marketJob.Spec, marketJob.Module, marketJob.Mode, ⟨0⟩,
          marketJob.Services⟩ [("mod", "1.0")]
      = doOffersMatch wideResourceOffer marketJob [("mod", "1.0")] :=
  ⟨claim_C7.1 marketResourceOffer versionedJob [("mod", "1.0")] (by decide),
   claim_C7.2.1 expensiveResourceOffer versionedJob [("mod", "1.0")] (by decide) (by decide)
     (by decide),
   claim_C7.2.2 wideResourceOffer marketJob [("mod", "1.0")] 77 0 (by decide) (by decide)⟩

theorem goodSort_conforms : GoSortSpec goodSort := fun l =>
  ⟨List.perm_insertionSort priceLE l, List.sorted_insertionSort priceLE l⟩

theorem find?_append_isSome {α : Type} {p : α → Bool} {l1 l2 : List α}
    (h : (l1.find? p).isSome) : (l1 ++ l2).find? p = l1.find? p := by
  rw [List.find?_append]
  obtain ⟨a, ha⟩ := Option.isSome_iff_exists.mp h
  rw [ha]
  rfl

theorem find?_append_of_none {α : Type} {p : α → Bool} {l1 l2 : List α}
    (h : l1.find? p = none) : (l1 ++ l2).find? p = l2.find? p := by
  rw [List.find?_append, h]
  rfl

theorem find?_none_of_append {α : Type} {p : α → Bool} {l1 l2 : List α}
    (h : (l1 ++ l2).find? p = none) : l1.find? p = none := by
  rw [List.find?_append] at h
  cases h1 : l1.find? p with
  | none => rfl
  | some a => rw [h1] at h; exact absurd h (by simp [Option.or])

theorem getMatchDecision_eq (s : SolverStore) (r j : String) :
    getMatchDecision s r j
      = s.decisions.find? (fun d => d.ResourceOffer == r && d.JobOffer == j) := rfl

theorem getMatchDecision_grow {s : SolverStore} {δ : List MatchDecision} {r j : String}
    (h : (getMatchDecision s r j).isSome) :
    (getMatchDecision ⟨s.resourceOffers, s.jobOffers, s.decisions ++ δ⟩ r j).isSome := by
  rw [getMatchDecision_eq] at h
  show ((s.decisions ++ δ).find? fun d => d.ResourceOffer == r && d.JobOffer == j).isSome
  rw [find?_append_isSome h]
  exact h

theorem getMatchDecision_shrink {s : SolverStore} {δ : List MatchDecision} {r j : String}
    (h : getMatchDecision ⟨s.resourceOffers, s.jobOffers, s.decisions ++ δ⟩ r j = none) :
    getMatchDecision s r j = none := by
  rw [getMatchDecision_eq] at h
  rw [getMatchDecision_eq]
  exact find?_none_of_append h

theorem processRO_nil (f : ResourceOffer → JobOffer → Allowlist → Bool) (al : Allowlist)
    (jobOffer : JobOffer) (s : SolverStore) :
    processResourceOffers f al jobOffer [] s = ([], s) := rfl

theorem processRO_cons_skip {f : ResourceOffer → JobOffer → Allowlist → Bool} {al : Allowlist}
    {jobOffer : JobOffer} {resourceOffer : ResourceOffer} {rest : List ResourceOffer}
    {s : SolverStore} {d : MatchDecision}
    (h : getMatchDecision s resourceOffer.ID jobOffer.ID = some d) :
    processResourceOffers f al jobOffer (resourceOffer :: rest) s
      = processResourceOffers f al jobOffer rest s := by
  simp [processResourceOffers, h]

theorem processRO_cons_match {f : ResourceOffer → JobOffer → Allowlist → Bool} {al : Allowlist}
    {jobOffer : JobOffer} {resourceOffer : ResourceOffer} {rest : List ResourceOffer}
    {s : SolverStore}
    (h : getMatchDecision s resourceOffer.ID jobOffer.ID = none)
    (hf : f resourceOffer jobOffer al = true) :
    processResourceOffers f al jobOffer (resourceOffer :: rest) s
      = (resourceOffer :: (processResourceOffers f al jobOffer rest s).1,
         (processResourceOffers f al jobOffer rest s).2) := by
  simp [processResourceOffers, h, hf]

theorem processRO_cons_nomatch {f : ResourceOffer → JobOffer → Allowlist → Bool} {al : Allowlist}
    {jobOffer : JobOffer} {resourceOffer : ResourceOffer} {rest : List ResourceOffer}
    {s : SolverStore}
    (h : getMatchDecision s resourceOffer.ID jobOffer.ID = none)
    (hf : f resourceOffer jobOffer al = false) :
    processResourceOffers f al jobOffer (resourceOffer :: rest) s
      = processResourceOffers f al jobOffer rest
          (addMatchDecision s resourceOffer.ID jobOffer.ID "" false) := by
  simp [processResourceOffers, h, hf]

theorem foldlAdd_store (jID : String) (g : ResourceOffer → String) :
    ∀ (l : List ResourceOffer) (st : SolverStore),
    l.foldl (fun acc m => addMatchDecision acc m.ID jID (g m) true) st
      = ⟨st.resourceOffers, st.jobOffers,
          st.decisions ++ l.map (fun m => ⟨jID, m.ID, g m, true⟩)⟩ := by
  intro l
  induction l with
  | nil => intro st; cases st; simp
  | cons x xs ih =>
    intro st
    rw [List.foldl_cons, ih]
    simp [addMatchDecision]

theorem processRO_main (f : ResourceOffer → JobOffer → Allowlist → Bool) (al : Allowlist)
    (jobOffer : JobOffer) :
    ∀ (l : List ResourceOffer) (s : SolverStore),
    ∃ δ, (processResourceOffers f al jobOffer l s).2
        = ⟨s.resourceOffers, s.jobOffers, s.decisions ++ δ⟩
      ∧ ∀ d ∈ δ, d.JobOffer = jobOffer.ID ∧ d.Result = false ∧ d.Deal = ""
        ∧ getMatchDecision s d.ResourceOffer jobOffer.ID = none := by
  intro l
  induction l with
  | nil =>
    intro s
    refine ⟨[], ?_, by simp⟩
    rw [processRO_nil]
    cases s
    simp
  | cons ro rest ih =>
    intro s
    cases hd : getMatchDecision s ro.ID jobOffer.ID with
    | some d => rw [processRO_cons_skip hd]; exact ih s
    | none =>
      cases hf : f ro jobOffer al with
      | true => rw [processRO_cons_match hd hf]; exact ih s
      | false =>
        rw [processRO_cons_nomatch hd hf]
        obtain ⟨δ, hst, hprop⟩ := ih (addMatchDecision s ro.ID jobOffer.ID "" false)
        refine ⟨⟨jobOffer.ID, ro.ID, "", false⟩ :: δ, ?_, ?_⟩
        · rw [hst]
          simp [addMatchDecision]
        · intro d hdmem
          rcases List.mem_cons.mp hdmem with rfl | hdmem2
          · exact ⟨rfl, rfl, rfl, hd⟩
          · obtain ⟨h1, h2, h3, h4⟩ := hprop d hdmem2
            refine ⟨h1, h2, h3, ?_⟩
            exact getMatchDecision_shrink (δ := [⟨jobOffer.ID, ro.ID, "", false⟩]) h4

theorem processRO_matching (f : ResourceOffer → JobOffer → Allowlist → Bool) (al : Allowlist)
    (jobOffer : JobOffer) :
    ∀ (l : List ResourceOffer) (s : SolverStore),
    (processResourceOffers f al jobOffer l s).1.Sublist l
    ∧ ∀ m ∈ (processResourceOffers f al jobOffer l s).1,
        getMatchDecision s m.ID jobOffer.ID = none ∧ f m jobOffer al = true := by
  intro l
  induction l with
  | nil => intro s; rw [processRO_nil]; exact ⟨List.Sublist.refl _, by simp⟩
  | cons ro rest ih =>
    intro s
    cases hd : getMatchDecision s ro.ID jobOffer.ID with
    | some d =>
      rw [processRO_cons_skip hd]
      obtain ⟨hsub, hmem⟩ := ih s
      exact ⟨hsub.trans (List.sublist_cons_self ro rest), hmem⟩
    | none =>
      cases hf : f ro jobOffer al with
      | true =>
        rw [processRO_cons_match hd hf]
        obtain ⟨hsub, hmem⟩ := ih s
        refine ⟨List.Sublist.cons₂ ro hsub, ?_⟩
        intro m hm
        rcases List.mem_cons.mp hm with rfl | hm2
        · exact ⟨hd, hf⟩
        · exact hmem m hm2
      | false =>
        rw [processRO_cons_nomatch hd hf]
        obtain ⟨hsub, hmem⟩ := ih (addMatchDecision s ro.ID jobOffer.ID "" false)
        refine ⟨hsub.trans (List.sublist_cons_self ro rest), ?_⟩
        intro m hm
        obtain ⟨h1, h2⟩ := hmem m hm
        exact ⟨getMatchDecision_shrink (δ := [⟨jobOffer.ID, ro.ID, "", false⟩]) h1, h2⟩

theorem processRO_covers (f : ResourceOffer → JobOffer → Allowlist → Bool) (al : Allowlist)
    (jobOffer : JobOffer) :
    ∀ (l : List ResourceOffer) (s : SolverStore), ∀ ro ∈ l,
    (getMatchDecision (processResourceOffers f al jobOffer l s).2 ro.ID jobOffer.ID).isSome
    ∨ ro ∈ (processResourceOffers f al jobOffer l s).1 := by
  intro l
  induction l with
  | nil => intro s ro h; exact absurd h (List.not_mem_nil ro)
  | cons hd0 rest ih =>
    intro s ro hro
    rcases List.mem_cons.mp hro with rfl | hro2
    · cases hd : getMatchDecision s ro.ID jobOffer.ID with
      | some d =>
        rw [processRO_cons_skip hd]
        left
        obtain ⟨δ, hst, -⟩ := processRO_main f al jobOffer rest s
        rw [hst]
        exact getMatchDecision_grow (by rw [hd]; rfl)
      | none =>
        cases hf : f ro jobOffer al with
        | true =>
          rw [processRO_cons_match hd hf]
          right
          exact List.mem_cons_self ro _
        | false =>
          rw [processRO_cons_nomatch hd hf]
          left
          have hbase : (getMatchDecision (addMatchDecision s ro.ID jobOffer.ID "" false)
              ro.ID jobOffer.ID).isSome := by
            rw [getMatchDecision_eq]
            simp [addMatchDecision, List.find?_append]
          obtain ⟨δ, hst, -⟩ := processRO_main f al jobOffer rest
            (addMatchDecision s ro.ID jobOffer.ID "" false)
          rw [hst]
          exact getMatchDecision_grow hbase
    · cases hd : getMatchDecision s hd0.ID jobOffer.ID with
      | some d => rw [processRO_cons_skip hd]; exact ih s ro hro2
      | none =>
        cases hf : f hd0 jobOffer al with
        | true =>
          rw [processRO_cons_match hd hf]
          rcases ih s ro hro2 with h | h
          · exact Or.inl h
          · exact Or.inr (List.mem_cons_of_mem hd0 h)
        | false =>
          rw [processRO_cons_nomatch hd hf]
          exact ih (addMatchDecision s hd0.ID jobOffer.ID "" false) ro hro2

theorem processRO_all_decided (f : ResourceOffer → JobOffer → Allowlist → Bool) (al : Allowlist)
    (jobOffer : JobOffer) :
    ∀ (l : List ResourceOffer) (s : SolverStore),
    (∀ ro ∈ l, (getMatchDecision s ro.ID jobOffer.ID).isSome) →
    processResourceOffers f al jobOffer l s = ([], s) := by
  intro l
  induction l with
  | nil => intro s _; exact processRO_nil f al jobOffer s
  | cons ro rest ih =>
    intro s hall
    obtain ⟨d, hd⟩ := Option.isSome_iff_exists.mp (hall ro (List.mem_cons_self ro rest))
    rw [processRO_cons_skip hd]
    exact ih s (fun r hr => hall r (List.mem_cons_of_mem ro hr))

theorem processRO_append (f : ResourceOffer → JobOffer → Allowlist → Bool) (al : Allowlist)
    (jobOffer : JobOffer) :
    ∀ (l1 l2 : List ResourceOffer) (s : SolverStore),
    processResourceOffers f al jobOffer (l1 ++ l2) s
      = ((processResourceOffers f al jobOffer l1 s).1
          ++ (processResourceOffers f al jobOffer l2
              (processResourceOffers f al jobOffer l1 s).2).1,
         (processResourceOffers f al jobOffer l2
              (processResourceOffers f al jobOffer l1 s).2).2) := by
  intro l1
  induction l1 with
  | nil => intro l2 s; rw [List.nil_append, processRO_nil]; simp
  | cons ro rest ih =>
    intro l2 s
    rw [List.cons_append]
    cases hd : getMatchDecision s ro.ID jobOffer.ID with
    | some d => rw [processRO_cons_skip hd, processRO_cons_skip hd, ih]
    | none =>
      cases hf : f ro jobOffer al with
      | true => rw [processRO_cons_match hd hf, processRO_cons_match hd hf, ih]; simp
      | false => rw [processRO_cons_nomatch hd hf, processRO_cons_nomatch hd hf, ih]

theorem isSome_getMatchDecision_iff {s : SolverStore} {r j : String} :
    (getMatchDecision s r j).isSome
      ↔ ∃ d ∈ s.decisions, d.ResourceOffer = r ∧ d.JobOffer = j := by
  rw [getMatchDecision_eq, List.find?_isSome]
  simp

theorem processJO_eq_empty {f : ResourceOffer → JobOffer → Allowlist → Bool}
    {sortFn : List ResourceOffer → List ResourceOffer}
    {mkID : JobOffer → ResourceOffer → String} {al : Allowlist} {jobOffer : JobOffer}
    {resourceOffers : List ResourceOffer} {s : SolverStore}
    (h : (processResourceOffers f al jobOffer resourceOffers s).1 = []) :
    processJobOffer f sortFn mkID al jobOffer resourceOffers s
      = ([], (processResourceOffers f al jobOffer resourceOffers s).2) := by
  simp [processJobOffer, h]

theorem processJO_eq_sortnil {f : ResourceOffer → JobOffer → Allowlist → Bool}
    {sortFn : List ResourceOffer → List ResourceOffer}
    {mkID : JobOffer → ResourceOffer → String} {al : Allowlist} {jobOffer : JobOffer}
    {resourceOffers : List ResourceOffer} {s : SolverStore}
    (h : sortFn (processResourceOffers f al jobOffer resourceOffers s).1 = []) :
    processJobOffer f sortFn mkID al jobOffer resourceOffers s
      = ([], (processResourceOffers f al jobOffer resourceOffers s).2) := by
  simp [processJobOffer, h]

theorem processJO_eq_deal {f : ResourceOffer → JobOffer → Allowlist → Bool}
    {sortFn : List ResourceOffer → List ResourceOffer}
    {mkID : JobOffer → ResourceOffer → String} {al : Allowlist} {jobOffer : JobOffer}
    {resourceOffers : List ResourceOffer} {s : SolverStore} {ch : ResourceOffer}
    {restSorted : List ResourceOffer}
    (hne : (processResourceOffers f al jobOffer resourceOffers s).1 ≠ [])
    (hsorted : sortFn (processResourceOffers f al jobOffer resourceOffers s).1
      = ch :: restSorted) :
    processJobOffer f sortFn mkID al jobOffer resourceOffers s
      = ([GetDeal mkID jobOffer ch],
         ⟨(processResourceOffers f al jobOffer resourceOffers s).2.resourceOffers,
          (processResourceOffers f al jobOffer resourceOffers s).2.jobOffers,
          (processResourceOffers f al jobOffer resourceOffers s).2.decisions
            ++ (ch :: restSorted).map (fun m =>
                ⟨jobOffer.ID, m.ID, if ch.ID = m.ID then mkID jobOffer ch else "", true⟩)⟩) := by
  have hpos : 0 < (processResourceOffers f al jobOffer resourceOffers s).1.length :=
    List.length_pos.mpr hne
  simp only [processJobOffer, if_pos hpos, hsorted]
  rw [foldlAdd_store]
  rfl

theorem processJO_store (f : ResourceOffer → JobOffer → Allowlist → Bool)
    (sortFn : List ResourceOffer → List ResourceOffer)
    (mkID : JobOffer → ResourceOffer → String) (al : Allowlist) (jobOffer : JobOffer)
    (resourceOffers : List ResourceOffer) (s : SolverStore) :
    ∃ δ, (processJobOffer f sortFn mkID al jobOffer resourceOffers s).2
      = ⟨s.resourceOffers, s.jobOffers, s.decisions ++ δ⟩ := by
  obtain ⟨δ1, h1, -⟩ := processRO_main f al jobOffer resourceOffers s
  cases hm : (processResourceOffers f al jobOffer resourceOffers s).1 with
  | nil => rw [processJO_eq_empty hm, h1]; exact ⟨δ1, rfl⟩
  | cons x xs =>
    cases hs : sortFn (processResourceOffers f al jobOffer resourceOffers s).1 with
    | nil => rw [processJO_eq_sortnil hs, h1]; exact ⟨δ1, rfl⟩
    | cons ch restSorted =>
      rw [processJO_eq_deal (by rw [hm]; exact List.cons_ne_nil x xs) hs, h1]
      exact ⟨δ1 ++ (ch :: restSorted).map (fun m =>
        ⟨jobOffer.ID, m.ID, if ch.ID = m.ID then mkID jobOffer ch else "", true⟩),
        by simp⟩

theorem processJO_covers (f : ResourceOffer → JobOffer → Allowlist → Bool)
    {sortFn : List ResourceOffer → List ResourceOffer}
    (hsort : GoSortSpec sortFn)
    (mkID : JobOffer → ResourceOffer → String) (al : Allowlist) (jobOffer : JobOffer)
    (resourceOffers : List ResourceOffer) (s : SolverStore) :
    ∀ ro ∈ resourceOffers,
    (getMatchDecision (processJobOffer f sortFn mkID al jobOffer resourceOffers s).2
      ro.ID jobOffer.ID).isSome := by
  intro ro hro
  rcases processRO_covers f al jobOffer resourceOffers s ro hro with hdec | hmem
  · obtain ⟨d, hd1, hd2, hd3⟩ := isSome_getMatchDecision_iff.mp hdec
    apply isSome_getMatchDecision_iff.mpr
    cases hm : (processResourceOffers f al jobOffer resourceOffers s).1 with
    | nil => rw [processJO_eq_empty hm]; exact ⟨d, hd1, hd2, hd3⟩
    | cons x xs =>
      cases hs : sortFn (processResourceOffers f al jobOffer resourceOffers s).1 with
      | nil => rw [processJO_eq_sortnil hs]; exact ⟨d, hd1, hd2, hd3⟩
      | cons ch restSorted =>
        rw [processJO_eq_deal (by rw [hm]; exact List.cons_ne_nil x xs) hs]
        exact ⟨d, List.mem_append_left _ hd1, hd2, hd3⟩
  · have hne : (processResourceOffers f al jobOffer resourceOffers s).1 ≠ [] :=
      List.ne_nil_of_mem hmem
    cases hs : sortFn (processResourceOffers f al jobOffer resourceOffers s).1 with
    | nil =>
      have hperm := (hsort (processResourceOffers f al jobOffer resourceOffers s).1).1
      rw [hs] at hperm
      exact absurd hperm.symm.eq_nil hne
    | cons ch restSorted =>
      have hperm := (hsort (processResourceOffers f al jobOffer resourceOffers s).1).1
      rw [hs] at hperm
      have hmem2 : ro ∈ ch :: restSorted := hperm.symm.subset hmem
      apply isSome_getMatchDecision_iff.mpr
      rw [processJO_eq_deal hne hs]
      refine ⟨⟨jobOffer.ID, ro.ID, if ch.ID = ro.ID then mkID jobOffer ch else "", true⟩,
        ?_, rfl, rfl⟩
      apply List.mem_append_right
      exact List.mem_map_of_mem _ hmem2

theorem processJO_all_decided (f : ResourceOffer → JobOffer → Allowlist → Bool)
    (sortFn : List ResourceOffer → List ResourceOffer)
    (mkID : JobOffer → ResourceOffer → String) (al : Allowlist) {jobOffer : JobOffer}
    {resourceOffers : List ResourceOffer} {s : SolverStore}
    (hall : ∀ ro ∈ resourceOffers, (getMatchDecision s ro.ID jobOffer.ID).isSome) :
    processJobOffer f sortFn mkID al jobOffer resourceOffers s = ([], s) := by
  have h := processRO_all_decided f al jobOffer resourceOffers s hall
  rw [processJO_eq_empty (by rw [h]), h]

theorem runJO_nil (f : ResourceOffer → JobOffer → Allowlist → Bool)
    (sortFn : List ResourceOffer → List ResourceOffer)
    (mkID : JobOffer → ResourceOffer → String) (al : Allowlist)
    (resourceOffers : List ResourceOffer) (s : SolverStore) :
    runJobOffers f sortFn mkID al resourceOffers [] s = ([], s) := rfl

theorem runJO_cons (f : ResourceOffer → JobOffer → Allowlist → Bool)
    (sortFn : List ResourceOffer → List ResourceOffer)
    (mkID : JobOffer → ResourceOffer → String) (al : Allowlist)
    (resourceOffers : List ResourceOffer) (jobOffer : JobOffer) (rest : List JobOffer)
    (s : SolverStore) :
    runJobOffers f sortFn mkID al resourceOffers (jobOffer :: rest) s
      = ((processJobOffer f sortFn mkID al jobOffer resourceOffers s).1
          ++ (runJobOffers f sortFn mkID al resourceOffers rest
              (processJobOffer f sortFn mkID al jobOffer resourceOffers s).2).1,
         (runJobOffers f sortFn mkID al resourceOffers rest
              (processJobOffer f sortFn mkID al jobOffer resourceOffers s).2).2) := rfl

theorem runJO_store (f : ResourceOffer → JobOffer → Allowlist → Bool)
    (sortFn : List ResourceOffer → List ResourceOffer)
    (mkID : JobOffer → ResourceOffer → String) (al : Allowlist)
    (resourceOffers : List ResourceOffer) :
    ∀ (jobOffers : List JobOffer) (s : SolverStore),
    ∃ δ, (runJobOffers f sortFn mkID al resourceOffers jobOffers s).2
      = ⟨s.resourceOffers, s.jobOffers, s.decisions ++ δ⟩ := by
  intro jobOffers
  induction jobOffers with
  | nil =>
    intro s
    refine ⟨[], ?_⟩
    rw [runJO_nil]
    cases s
    simp
  | cons jo rest ih =>
    intro s
    rw [runJO_cons]
    obtain ⟨δ1, h1⟩ := processJO_store f sortFn mkID al jo resourceOffers s
    obtain ⟨δ2, h2⟩ := ih (processJobOffer f sortFn mkID al jo resourceOffers s).2
    rw [h2, h1]
    exact ⟨δ1 ++ δ2, by simp⟩

theorem runJO_covers (f : ResourceOffer → JobOffer → Allowlist → Bool)
    {sortFn : List ResourceOffer → List ResourceOffer}
    (hsort : GoSortSpec sortFn)
    (mkID : JobOffer → ResourceOffer → String) (al : Allowlist)
    (resourceOffers : List ResourceOffer) :
    ∀ (jobOffers : List JobOffer) (s : SolverStore), ∀ jo ∈ jobOffers,
    ∀ ro ∈ resourceOffers,
    (getMatchDecision (runJobOffers f sortFn mkID al resourceOffers jobOffers s).2
      ro.ID jo.ID).isSome := by
  intro jobOffers
  induction jobOffers with
  | nil => intro s jo hjo; exact absurd hjo (List.not_mem_nil jo)
  | cons j rest ih =>
    intro s jo hjo ro hro
    rw [runJO_cons]
    rcases List.mem_cons.mp hjo with rfl | hjo2
    · have hbase := processJO_covers f hsort mkID al jo resourceOffers s ro hro
      obtain ⟨δ2, h2⟩ := runJO_store f sortFn mkID al resourceOffers rest
        (processJobOffer f sortFn mkID al jo resourceOffers s).2
      rw [h2]
      exact getMatchDecision_grow hbase
    · exact ih (processJobOffer f sortFn mkID al j resourceOffers s).2 jo hjo2 ro hro

theorem runJO_all_decided (f : ResourceOffer → JobOffer → Allowlist → Bool)
    (sortFn : List ResourceOffer → List ResourceOffer)
    (mkID : JobOffer → ResourceOffer → String) (al : Allowlist)
    (resourceOffers : List ResourceOffer) :
    ∀ {jobOffers : List JobOffer} {s : SolverStore},
    (∀ jo ∈ jobOffers, ∀ ro ∈ resourceOffers,
      (getMatchDecision s ro.ID jo.ID).isSome) →
    runJobOffers f sortFn mkID al resourceOffers jobOffers s = ([], s) := by
  intro jobOffers
  induction jobOffers with
  | nil => intro s _; exact runJO_nil f sortFn mkID al resourceOffers s
  | cons j rest ih =>
    intro s hall
    rw [runJO_cons]
    have hj := processJO_all_decided f sortFn mkID al
      (fun ro hro => hall j (List.mem_cons_self j rest) ro hro)
    rw [hj]
    have hrest := ih (s := s) (fun jo hjo ro hro => hall jo (List.mem_cons_of_mem j hjo) ro hro)
    rw [hrest]
    simp

/-- C3: running the pass twice in a row with the same offers produces no
deal on the second run and leaves the stored decision set unchanged: the
second pass returns the empty deal list and exactly the store produced by
the first pass. The sort function is any conforming behaviour of the
unstable sort.Sort call. -/
theorem claim_C3 :
    ∀ (sortFn : List ResourceOffer → List ResourceOffer)
      (mkID : JobOffer → ResourceOffer → String) (db : SolverStore) (al : Allowlist),
    GoSortSpec sortFn →
    getMatchingDeals sortFn mkID (getMatchingDeals sortFn mkID db al).2 al
      = ([], (getMatchingDeals sortFn mkID db al).2) := by
  intro sortFn mkID db al hsort
  obtain ⟨δ, h1⟩ := runJO_store doOffersMatch sortFn mkID al db.resourceOffers db.jobOffers db
  have hro : (getMatchingDeals sortFn mkID db al).2.resourceOffers = db.resourceOffers := by
    show (runJobOffers doOffersMatch sortFn mkID al db.resourceOffers db.jobOffers db).2.resourceOffers
      = db.resourceOffers
    rw [h1]
  have hjo : (getMatchingDeals sortFn mkID db al).2.jobOffers = db.jobOffers := by
    show (runJobOffers doOffersMatch sortFn mkID al db.resourceOffers db.jobOffers db).2.jobOffers
      = db.jobOffers
    rw [h1]
  have hall : ∀ jo ∈ db.jobOffers, ∀ ro ∈ db.resourceOffers,
      (getMatchDecision (getMatchingDeals sortFn mkID db al).2 ro.ID jo.ID).isSome :=
    fun jo hjo2 ro hro2 =>
      runJO_covers doOffersMatch hsort mkID al db.resourceOffers db.jobOffers db jo hjo2 ro hro2
  show getMatchingDealsWith doOffersMatch sortFn mkID (getMatchingDeals sortFn mkID db al).2 al
    = ([], (getMatchingDeals sortFn mkID db al).2)
  unfold getMatchingDealsWith
  rw [hro, hjo]
  exact runJO_all_decided doOffersMatch sortFn mkID al db.resourceOffers hall

theorem claim_C3_witness :
    getMatchingDeals goodSort mkDealID
      (getMatchingDeals goodSort mkDealID
        ⟨[wideResourceOffer, expensiveResourceOffer], [versionedJob], []⟩ [("mod", "1.0")]).2
      [("mod", "1.0")]
    = ([], (getMatchingDeals goodSort mkDealID
        ⟨[wideResourceOffer, expensiveResourceOffer], [versionedJob], []⟩ [("mod", "1.0")]).2) :=
  claim_C3 goodSort mkDealID
    ⟨[wideResourceOffer, expensiveResourceOffer], [versionedJob], []⟩ [("mod", "1.0")]
    goodSort_conforms

theorem processRO_indep {f g : ResourceOffer → JobOffer → Allowlist → Bool} {al : Allowlist}
    {roID joID : String}
    (hagree : ∀ r j, ¬(r.ID = roID ∧ j.ID = joID) → f r j al = g r j al)
    (jobOffer : JobOffer) :
    ∀ (l : List ResourceOffer) (s : SolverStore),
    (getMatchDecision s roID joID).isSome →
    processResourceOffers f al jobOffer l s = processResourceOffers g al jobOffer l s := by
  intro l
  induction l with
  | nil => intro s _; rw [processRO_nil, processRO_nil]
  | cons ro rest ih =>
    intro s hinv
    cases hd : getMatchDecision s ro.ID jobOffer.ID with
    | some d => rw [processRO_cons_skip hd, processRO_cons_skip hd]; exact ih s hinv
    | none =>
      have hne : ¬(ro.ID = roID ∧ jobOffer.ID = joID) := by
        rintro ⟨h1, h2⟩
        rw [← h1, ← h2, hd] at hinv
        simp at hinv
      have hfg : f ro jobOffer al = g ro jobOffer al := hagree ro jobOffer hne
      cases hf : f ro jobOffer al with
      | true =>
        rw [processRO_cons_match hd hf, processRO_cons_match hd (hfg ▸ hf), ih s hinv]
      | false =>
        rw [processRO_cons_nomatch hd hf, processRO_cons_nomatch hd (hfg ▸ hf)]
        apply ih
        exact getMatchDecision_grow (δ := [⟨jobOffer.ID, ro.ID, "", false⟩]) hinv

theorem processJO_indep {f g : ResourceOffer → JobOffer → Allowlist → Bool} {al : Allowlist}
    {roID joID : String}
    (hagree : ∀ r j, ¬(r.ID = roID ∧ j.ID = joID) → f r j al = g r j al)
    (sortFn : List ResourceOffer → List ResourceOffer)
    (mkID : JobOffer → ResourceOffer → String) (jobOffer : JobOffer)
    (resourceOffers : List ResourceOffer) (s : SolverStore)
    (hinv : (getMatchDecision s roID joID).isSome) :
    processJobOffer f sortFn mkID al jobOffer resourceOffers s
      = processJobOffer g sortFn mkID al jobOffer resourceOffers s := by
  simp only [processJobOffer]
  rw [processRO_indep hagree jobOffer resourceOffers s hinv]

theorem runJO_indep {f g : ResourceOffer → JobOffer → Allowlist → Bool} {al : Allowlist}
    {roID joID : String}
    (hagree : ∀ r j, ¬(r.ID = roID ∧ j.ID = joID) → f r j al = g r j al)
    (sortFn : List ResourceOffer → List ResourceOffer)
    (mkID : JobOffer → ResourceOffer → String) (resourceOffers : List ResourceOffer) :
    ∀ (jobOffers : List JobOffer) (s : SolverStore),
    (getMatchDecision s roID joID).isSome →
    runJobOffers f sortFn mkID al resourceOffers jobOffers s
      = runJobOffers g sortFn mkID al resourceOffers jobOffers s := by
  intro jobOffers
  induction jobOffers with
  | nil => intro s _; rw [runJO_nil, runJO_nil]
  | cons jo rest ih =>
    intro s hinv
    rw [runJO_cons, runJO_cons]
    rw [processJO_indep hagree sortFn mkID jo resourceOffers s hinv]
    obtain ⟨δ, hst⟩ := processJO_store g sortFn mkID al jo resourceOffers s
    rw [ih (processJobOffer g sortFn mkID al jo resourceOffers s).2
      (by rw [hst]; exact getMatchDecision_grow hinv)]

theorem countPair_append_of_miss {s : SolverStore} {δ : List MatchDecision} {roID joID : String}
    (h : ∀ d ∈ δ, (d.ResourceOffer == roID && d.JobOffer == joID) = false) :
    countPair ⟨s.resourceOffers, s.jobOffers, s.decisions ++ δ⟩ roID joID
      = countPair s roID joID := by
  show ((s.decisions ++ δ).filter
    (fun d => d.ResourceOffer == roID && d.JobOffer == joID)).length
    = (s.decisions.filter (fun d => d.ResourceOffer == roID && d.JobOffer == joID)).length
  rw [List.filter_append]
  have hnil : δ.filter (fun d => d.ResourceOffer == roID && d.JobOffer == joID) = [] := by
    apply List.filter_eq_nil_iff.mpr
    intro d hd
    rw [h d hd]
    simp
  rw [hnil, List.append_nil]

theorem processRO_countPair (f : ResourceOffer → JobOffer → Allowlist → Bool) (al : Allowlist)
    (jobOffer : JobOffer) {roID joID : String} (l : List ResourceOffer) (s : SolverStore)
    (hinv : (getMatchDecision s roID joID).isSome) :
    countPair (processResourceOffers f al jobOffer l s).2 roID joID
      = countPair s roID joID := by
  obtain ⟨δ, hst, hprop⟩ := processRO_main f al jobOffer l s
  rw [hst]
  apply countPair_append_of_miss
  intro d hd
  obtain ⟨hJ, -, -, hnone⟩ := hprop d hd
  by_contra hbc
  rw [Bool.not_eq_false, Bool.and_eq_true, beq_iff_eq, beq_iff_eq] at hbc
  obtain ⟨e1, e2⟩ := hbc
  rw [e1] at hnone
  rw [hJ] at e2
  rw [e2] at hnone
  rw [hnone] at hinv
  simp at hinv

theorem processJO_countPair (f : ResourceOffer → JobOffer → Allowlist → Bool)
    {sortFn : List ResourceOffer → List ResourceOffer} (hsort : GoSortSpec sortFn)
    (mkID : JobOffer → ResourceOffer → String) (al : Allowlist) (jobOffer : JobOffer)
    {roID joID : String} (resourceOffers : List ResourceOffer) (s : SolverStore)
    (hinv : (getMatchDecision s roID joID).isSome) :
    countPair (processJobOffer f sortFn mkID al jobOffer resourceOffers s).2 roID joID
      = countPair s roID joID := by
  cases hm : (processResourceOffers f al jobOffer resourceOffers s).1 with
  | nil =>
    rw [processJO_eq_empty hm]
    exact processRO_countPair f al jobOffer resourceOffers s hinv
  | cons x xs =>
    cases hs : sortFn (processResourceOffers f al jobOffer resourceOffers s).1 with
    | nil =>
      rw [processJO_eq_sortnil hs]
      exact processRO_countPair f al jobOffer resourceOffers s hinv
    | cons ch restSorted =>
      have hne : (processResourceOffers f al jobOffer resourceOffers s).1 ≠ [] := by
        rw [hm]; exact List.cons_ne_nil x xs
      rw [processJO_eq_deal hne hs]
      obtain ⟨δ1, hst1, -⟩ := processRO_main f al jobOffer resourceOffers s
      have hmiss : ∀ d ∈ (ch :: restSorted).map (fun m =>
          (⟨jobOffer.ID, m.ID, if ch.ID = m.ID then mkID jobOffer ch else "", true⟩
            : MatchDecision)),
          (d.ResourceOffer == roID && d.JobOffer == joID) = false := by
        intro d hd
        obtain ⟨m, hmem, rfl⟩ := List.mem_map.mp hd
        have hperm := (hsort (processResourceOffers f al jobOffer resourceOffers s).1).1
        rw [hs] at hperm
        have hmem2 : m ∈ (processResourceOffers f al jobOffer resourceOffers s).1 :=
          hperm.subset hmem
        have hnone := ((processRO_matching f al jobOffer resourceOffers s).2 m hmem2).1
        by_contra hbc
        rw [Bool.not_eq_false, Bool.and_eq_true, beq_iff_eq, beq_iff_eq] at hbc
        obtain ⟨e1, e2⟩ := hbc
        simp only at e1 e2
        rw [e1] at hnone
        rw [e2] at hnone
        rw [hnone] at hinv
        simp at hinv
      calc countPair ⟨(processResourceOffers f al jobOffer resourceOffers s).2.resourceOffers,
            (processResourceOffers f al jobOffer resourceOffers s).2.jobOffers,
            (processResourceOffers f al jobOffer resourceOffers s).2.decisions
              ++ (ch :: restSorted).map (fun m =>
                  ⟨jobOffer.ID, m.ID, if ch.ID = m.ID then mkID jobOffer ch else "", true⟩)⟩
            roID joID
          = countPair (processResourceOffers f al jobOffer resourceOffers s).2 roID joID :=
            countPair_append_of_miss hmiss
        _ = countPair s roID joID :=
            processRO_countPair f al jobOffer resourceOffers s hinv

theorem runJO_countPair (f : ResourceOffer → JobOffer → Allowlist → Bool)
    {sortFn : List ResourceOffer → List ResourceOffer} (hsort : GoSortSpec sortFn)
    (mkID : JobOffer → ResourceOffer → String) (al : Allowlist)
    {roID joID : String} (resourceOffers : List ResourceOffer) :
    ∀ (jobOffers : List JobOffer) (s : SolverStore),
    (getMatchDecision s roID joID).isSome →
    countPair (runJobOffers f sortFn mkID al resourceOffers jobOffers s).2 roID joID
      = countPair s roID joID := by
  intro jobOffers
  induction jobOffers with
  | nil => intro s _; rw [runJO_nil]
  | cons jo rest ih =>
    intro s hinv
    rw [runJO_cons]
    obtain ⟨δ, hst⟩ := processJO_store f sortFn mkID al jo resourceOffers s
    have hinv2 : (getMatchDecision
        (processJobOffer f sortFn mkID al jo resourceOffers s).2 roID joID).isSome := by
      rw [hst]; exact getMatchDecision_grow hinv
    calc countPair (runJobOffers f sortFn mkID al resourceOffers rest
            (processJobOffer f sortFn mkID al jo resourceOffers s).2).2 roID joID
        = countPair (processJobOffer f sortFn mkID al jo resourceOffers s).2 roID joID :=
          ih (processJobOffer f sortFn mkID al jo resourceOffers s).2 hinv2
      _ = countPair s roID joID :=
          processJO_countPair f hsort mkID al jo resourceOffers s hinv

/-- C2: an already decided pair is never re-evaluated and never re-decided.
First conjunct, visiting: in the inner loop, a resource offer whose pair
with the current job offer carries a decision at the moment it is visited
(that is, in the store state reached after the offers before it) is skipped
outright, so processing it is the same as processing the list without it.
Second conjunct, whole pass: for a pair decided at pass start, the pass
result is unchanged when the compatibility predicate is replaced by any
predicate differing only on that pair (the predicate is never invoked on
it), and the number of stored decisions for the pair is unchanged (no new
decision is written); instantiating f with doOffersMatch gives the real
pass getMatchingDeals. -/
theorem claim_C2 :
    (∀ (f : ResourceOffer → JobOffer → Allowlist → Bool) (al : Allowlist)
        (jobOffer : JobOffer) (pre : List ResourceOffer) (resourceOffer : ResourceOffer)
        (post : List ResourceOffer) (s : SolverStore),
      (getMatchDecision (processResourceOffers f al jobOffer pre s).2
        resourceOffer.ID jobOffer.ID).isSome →
      processResourceOffers f al jobOffer (pre ++ resourceOffer :: post) s
        = processResourceOffers f al jobOffer (pre ++ post) s)
    ∧ (∀ (f g : ResourceOffer → JobOffer → Allowlist → Bool)
        (sortFn : List ResourceOffer → List ResourceOffer)
        (mkID : JobOffer → ResourceOffer → String) (db : SolverStore) (al : Allowlist)
        (roID joID : String),
      GoSortSpec sortFn →
      (getMatchDecision db roID joID).isSome →
      (∀ r j, ¬(r.ID = roID ∧ j.ID = joID) → f r j al = g r j al) →
      getMatchingDealsWith f sortFn mkID db al = getMatchingDealsWith g sortFn mkID db al
      ∧ countPair (getMatchingDealsWith f sortFn mkID db al).2 roID joID
          = countPair db roID joID) := by
  constructor
  · intro f al jobOffer pre resourceOffer post s hdec
    rw [processRO_append, processRO_append]
    obtain ⟨d, hd⟩ := Option.isSome_iff_exists.mp hdec
    rw [processRO_cons_skip hd]
  · intro f g sortFn mkID db al roID joID hsort hdec hagree
    constructor
    · show runJobOffers f sortFn mkID al db.resourceOffers db.jobOffers db
        = runJobOffers g sortFn mkID al db.resourceOffers db.jobOffers db
      exact runJO_indep hagree sortFn mkID db.resourceOffers db.jobOffers db hdec
    · show countPair (runJobOffers f sortFn mkID al db.resourceOffers db.jobOffers db).2
          roID joID = countPair db roID joID
      exact runJO_countPair f hsort mkID al db.resourceOffers db.jobOffers db hdec

theorem claim_C2_witness :
    (processResourceOffers doOffersMatch [("mod", "1.0")] versionedJob
        ([] ++ wideResourceOffer :: []) decidedStore
      = processResourceOffers doOffersMatch [("mod", "1.0")] versionedJob ([] ++ [])
          decidedStore)
    ∧ (getMatchingDealsWith doOffersMatch goodSort mkDealID decidedStore [("mod", "1.0")]
        = getMatchingDealsWith flippedOnPair goodSort mkDealID decidedStore [("mod", "1.0")]
      ∧ countPair (getMatchingDealsWith doOffersMatch goodSort mkDealID decidedStore
          [("mod", "1.0")]).2 "ra" "j1" = countPair decidedStore "ra" "j1") :=
  ⟨claim_C2.1 doOffersMatch [("mod", "1.0")] versionedJob [] wideResourceOffer [] decidedStore
      (by decide),
   claim_C2.2 doOffersMatch flippedOnPair goodSort mkDealID decidedStore [("mod", "1.0")]
      "ra" "j1" goodSort_conforms (by decide)
      (fun r j h => by simp [flippedOnPair, h])⟩

/-- C5: when a pair without prior decision fails the predicate, the negative
decision (empty deal, Result false) is appended to the store immediately,
before any later resource offer of the same job offer is examined: visiting
the failing offer continues with the remaining offers on the store extended
by exactly that negative decision, and the failing offer is not a
candidate. -/
theorem claim_C5 :
    ∀ (f : ResourceOffer → JobOffer → Allowlist → Bool) (al : Allowlist)
      (jobOffer : JobOffer) (pre : List ResourceOffer) (resourceOffer : ResourceOffer)
      (post : List ResourceOffer) (s : SolverStore),
    getMatchDecision (processResourceOffers f al jobOffer pre s).2
      resourceOffer.ID jobOffer.ID = none →
    f resourceOffer jobOffer al = false →
    processResourceOffers f al jobOffer (pre ++ resourceOffer :: post) s
      = ((processResourceOffers f al jobOffer pre s).1
          ++ (processResourceOffers f al jobOffer post
              (addMatchDecision (processResourceOffers f al jobOffer pre s).2
                resourceOffer.ID jobOffer.ID "" false)).1,
         (processResourceOffers f al jobOffer post
              (addMatchDecision (processResourceOffers f al jobOffer pre s).2
                resourceOffer.ID jobOffer.ID "" false)).2) := by
  intro f al jobOffer pre resourceOffer post s hnone hf
  rw [processRO_append, processRO_cons_nomatch hnone hf]

theorem claim_C5_witness :
    processResourceOffers doOffersMatch [("mod", "1.0")] versionedJob
        ([] ++ expensiveResourceOffer :: [wideResourceOffer])
        ⟨[expensiveResourceOffer, wideResourceOffer], [versionedJob], []⟩
      = ((processResourceOffers doOffersMatch [("mod", "1.0")] versionedJob []
            ⟨[expensiveResourceOffer, wideResourceOffer], [versionedJob], []⟩).1
          ++ (processResourceOffers doOffersMatch [("mod", "1.0")] versionedJob
              [wideResourceOffer]
              (addMatchDecision
                (processResourceOffers doOffersMatch [("mod", "1.0")] versionedJob []
                  ⟨[expensiveResourceOffer, wideResourceOffer], [versionedJob], []⟩).2
                expensiveResourceOffer.ID versionedJob.ID "" false)).1,
         (processResourceOffers doOffersMatch [("mod", "1.0")] versionedJob
              [wideResourceOffer]
              (addMatchDecision
                (processResourceOffers doOffersMatch [("mod", "1.0")] versionedJob []
                  ⟨[expensiveResourceOffer, wideResourceOffer], [versionedJob], []⟩).2
                expensiveResourceOffer.ID versionedJob.ID "" false)).2) :=
  claim_C5 doOffersMatch [("mod", "1.0")] versionedJob [] expensiveResourceOffer
    [wideResourceOffer] ⟨[expensiveResourceOffer, wideResourceOffer], [versionedJob], []⟩
    (by decide) (by decide)

theorem runJO_append (f : ResourceOffer → JobOffer → Allowlist → Bool)
    (sortFn : List ResourceOffer → List ResourceOffer)
    (mkID : JobOffer → ResourceOffer → String) (al : Allowlist)
    (resourceOffers : List ResourceOffer) :
    ∀ (l1 l2 : List JobOffer) (s : SolverStore),
    runJobOffers f sortFn mkID al resourceOffers (l1 ++ l2) s
      = ((runJobOffers f sortFn mkID al resourceOffers l1 s).1
          ++ (runJobOffers f sortFn mkID al resourceOffers l2
              (runJobOffers f sortFn mkID al resourceOffers l1 s).2).1,
         (runJobOffers f sortFn mkID al resourceOffers l2
              (runJobOffers f sortFn mkID al resourceOffers l1 s).2).2) := by
  intro l1
  induction l1 with
  | nil => intro l2 s; rw [List.nil_append, runJO_nil]; simp
  | cons jo rest ih =>
    intro l2 s
    rw [List.cons_append, runJO_cons, runJO_cons, ih]
    simp

theorem sorted_head_min {sortFn : List ResourceOffer → List ResourceOffer}
    (hsort : GoSortSpec sortFn) {l : List ResourceOffer} {ch : ResourceOffer}
    {restSorted : List ResourceOffer} (hs : sortFn l = ch :: restSorted) :
    ch ∈ l ∧ ∀ c ∈ l, priceLE ch c := by
  have hperm := (hsort l).1
  have hpair := (hsort l).2
  rw [hs] at hperm hpair
  constructor
  · exact hperm.subset (List.mem_cons_self ch restSorted)
  · intro c hc
    rcases List.mem_cons.mp (hperm.symm.subset hc) with rfl | hc3
    · exact Nat.le_refl _
    · exact (List.pairwise_cons.mp hpair).1 c hc3

/-- C4: for a job offer whose candidate set is non-empty, exactly one deal
is created, built from the sorted head (a candidate of minimum price); a
positive decision (Result true) is persisted for every candidate, carrying
the deal identifier exactly for candidates with the winner identifier and
the empty string for every other candidate (offer identifiers being unique
in the store); and in the whole pass the one deal of this job offer is
appended to the returned list between the deals of the earlier and later
job offers. The first conjunct covers the job offer processed from any
store state, in particular the state the pass reaches it in; the second
conjunct is the pass decomposition placing that deal in the result. -/
theorem claim_C4 :
    (∀ (sortFn : List ResourceOffer → List ResourceOffer)
        (mkID : JobOffer → ResourceOffer → String) (al : Allowlist) (jobOffer : JobOffer)
        (resourceOffers : List ResourceOffer) (s : SolverStore),
      GoSortSpec sortFn →
      (resourceOffers.map ResourceOffer.ID).Nodup →
      (processResourceOffers doOffersMatch al jobOffer resourceOffers s).1 ≠ [] →
      ∃ ch restSorted,
        sortFn (processResourceOffers doOffersMatch al jobOffer resourceOffers s).1
          = ch :: restSorted
        ∧ ch ∈ (processResourceOffers doOffersMatch al jobOffer resourceOffers s).1
        ∧ (∀ c ∈ (processResourceOffers doOffersMatch al jobOffer resourceOffers s).1,
            priceLE ch c)
        ∧ (processJobOffer doOffersMatch sortFn mkID al jobOffer resourceOffers s).1
            = [GetDeal mkID jobOffer ch]
        ∧ (processJobOffer doOffersMatch sortFn mkID al jobOffer resourceOffers s).2.decisions
            = (processResourceOffers doOffersMatch al jobOffer resourceOffers s).2.decisions
              ++ (ch :: restSorted).map (fun m =>
                  ⟨jobOffer.ID, m.ID, if ch.ID = m.ID then mkID jobOffer ch else "", true⟩)
        ∧ (∀ c ∈ (processResourceOffers doOffersMatch al jobOffer resourceOffers s).1,
            (⟨jobOffer.ID, c.ID, if ch.ID = c.ID then mkID jobOffer ch else "", true⟩
              : MatchDecision)
              ∈ (processJobOffer doOffersMatch sortFn mkID al jobOffer
                  resourceOffers s).2.decisions)
        ∧ (∀ c ∈ (processResourceOffers doOffersMatch al jobOffer resourceOffers s).1,
            c ≠ ch →
            (⟨jobOffer.ID, c.ID, "", true⟩ : MatchDecision)
              ∈ (processJobOffer doOffersMatch sortFn mkID al jobOffer
                  resourceOffers s).2.decisions))
    ∧ (∀ (sortFn : List ResourceOffer → List ResourceOffer)
        (mkID : JobOffer → ResourceOffer → String) (db : SolverStore) (al : Allowlist)
        (pre : List JobOffer) (jobOffer : JobOffer) (post : List JobOffer),
      db.jobOffers = pre ++ jobOffer :: post →
      (getMatchingDeals sortFn mkID db al).1
        = (runJobOffers doOffersMatch sortFn mkID al db.resourceOffers pre db).1
          ++ (processJobOffer doOffersMatch sortFn mkID al jobOffer db.resourceOffers
              (runJobOffers doOffersMatch sortFn mkID al db.resourceOffers pre db).2).1
          ++ (runJobOffers doOffersMatch sortFn mkID al db.resourceOffers post
              (processJobOffer doOffersMatch sortFn mkID al jobOffer db.resourceOffers
                (runJobOffers doOffersMatch sortFn mkID al db.resourceOffers pre db).2).2).1) := by
  constructor
  · intro sortFn mkID al jobOffer resourceOffers s hsort hnodup hne
    cases hs : sortFn (processResourceOffers doOffersMatch al jobOffer resourceOffers s).1 with
    | nil =>
      have hperm := (hsort (processResourceOffers doOffersMatch al jobOffer
        resourceOffers s).1).1
      rw [hs] at hperm
      exact absurd hperm.symm.eq_nil hne
    | cons ch restSorted =>
      obtain ⟨hchmem, hchmin⟩ := sorted_head_min hsort hs
      have hperm := (hsort (processResourceOffers doOffersMatch al jobOffer
        resourceOffers s).1).1
      rw [hs] at hperm
      have hsub : (processResourceOffers doOffersMatch al jobOffer resourceOffers s).1.Sublist
          resourceOffers :=
        (processRO_matching doOffersMatch al jobOffer resourceOffers s).1
      refine ⟨ch, restSorted, rfl, hchmem, hchmin, ?_, ?_, ?_, ?_⟩
      · rw [processJO_eq_deal hne hs]
      · rw [processJO_eq_deal hne hs]
      · intro c hc
        have hcmem2 : c ∈ ch :: restSorted := hperm.symm.subset hc
        rw [processJO_eq_deal hne hs]
        exact List.mem_append_right _ (List.mem_map_of_mem _ hcmem2)
      · intro c hc hcne
        have hcmem2 : c ∈ ch :: restSorted := hperm.symm.subset hc
        have hidne : ch.ID ≠ c.ID := by
          intro hid
          exact hcne (List.inj_on_of_nodup_map hnodup
            (hsub.subset hc) (hsub.subset hchmem) hid.symm)
        have h2 := List.mem_map_of_mem (fun m =>
          (⟨jobOffer.ID, m.ID, if ch.ID = m.ID then mkID jobOffer ch else "", true⟩
            : MatchDecision)) hcmem2
        simp only [if_neg hidne] at h2
        rw [processJO_eq_deal hne hs]
        exact List.mem_append_right _ h2
  · intro sortFn mkID db al pre jobOffer post hsplit
    show (runJobOffers doOffersMatch sortFn mkID al db.resourceOffers db.jobOffers db).1 = _
    rw [hsplit, runJO_append, runJO_cons]
    simp [List.append_assoc]

theorem claim_C4_witness :
    ∃ ch restSorted,
      goodSort (processResourceOffers doOffersMatch [("mod", "1.0")] versionedJob
          [wideResourceOffer, midResourceOffer] c4Store).1 = ch :: restSorted
      ∧ ch ∈ (processResourceOffers doOffersMatch [("mod", "1.0")] versionedJob
          [wideResourceOffer, midResourceOffer] c4Store).1
      ∧ (∀ c ∈ (processResourceOffers doOffersMatch [("mod", "1.0")] versionedJob
          [wideResourceOffer, midResourceOffer] c4Store).1, priceLE ch c)
      ∧ (processJobOffer doOffersMatch goodSort mkDealID [("mod", "1.0")] versionedJob
          [wideResourceOffer, midResourceOffer] c4Store).1
          = [GetDeal mkDealID versionedJob ch]
      ∧ (processJobOffer doOffersMatch goodSort mkDealID [("mod", "1.0")] versionedJob
          [wideResourceOffer, midResourceOffer] c4Store).2.decisions
          = (processResourceOffers doOffersMatch [("mod", "1.0")] versionedJob
              [wideResourceOffer, midResourceOffer] c4Store).2.decisions
            ++ (ch :: restSorted).map (fun m =>
                ⟨versionedJob.ID, m.ID,
                  if ch.ID = m.ID then mkDealID versionedJob ch else "", true⟩)
      ∧ (∀ c ∈ (processResourceOffers doOffersMatch [("mod", "1.0")] versionedJob
          [wideResourceOffer, midResourceOffer] c4Store).1,
          (⟨versionedJob.ID, c.ID,
            if ch.ID = c.ID then mkDealID versionedJob ch else "", true⟩ : MatchDecision)
            ∈ (processJobOffer doOffersMatch goodSort mkDealID [("mod", "1.0")] versionedJob
                [wideResourceOffer, midResourceOffer] c4Store).2.decisions)
      ∧ (∀ c ∈ (processResourceOffers doOffersMatch [("mod", "1.0")] versionedJob
          [wideResourceOffer, midResourceOffer] c4Store).1, c ≠ ch →
          (⟨versionedJob.ID, c.ID, "", true⟩ : MatchDecision)
            ∈ (processJobOffer doOffersMatch goodSort mkDealID [("mod", "1.0")] versionedJob
                [wideResourceOffer, midResourceOffer] c4Store).2.decisions) :=
  claim_C4.1 goodSort mkDealID [("mod", "1.0")] versionedJob
    [wideResourceOffer, midResourceOffer] c4Store goodSort_conforms (by decide) (by decide)

/-- C1 amended: the deal formed for a job offer with non-empty candidate set
uses a candidate of minimum instruction price; the input-order tie-break of
the original claim is dropped, since the sort.Sort call is not stable and on
thirteen or more candidates its partition step really does displace the
earliest tied candidate, as the counterexample evaluates. The second
conjunct places the deal in the pass output. -/
theorem claim_C1_amended :
    (∀ (sortFn : List ResourceOffer → List ResourceOffer)
        (mkID : JobOffer → ResourceOffer → String) (al : Allowlist) (jobOffer : JobOffer)
        (resourceOffers : List ResourceOffer) (s : SolverStore),
      GoSortSpec sortFn →
      (processResourceOffers doOffersMatch al jobOffer resourceOffers s).1 ≠ [] →
      ∃ winner,
        winner ∈ (processResourceOffers doOffersMatch al jobOffer resourceOffers s).1
        ∧ (∀ c ∈ (processResourceOffers doOffersMatch al jobOffer resourceOffers s).1,
            priceLE winner c)
        ∧ (processJobOffer doOffersMatch sortFn mkID al jobOffer resourceOffers s).1
            = [GetDeal mkID jobOffer winner])
    ∧ (∀ (sortFn : List ResourceOffer → List ResourceOffer)
        (mkID : JobOffer → ResourceOffer → String) (db : SolverStore) (al : Allowlist)
        (pre : List JobOffer) (jobOffer : JobOffer) (post : List JobOffer),
      db.jobOffers = pre ++ jobOffer :: post →
      (getMatchingDeals sortFn mkID db al).1
        = (runJobOffers doOffersMatch sortFn mkID al db.resourceOffers pre db).1
          ++ (processJobOffer doOffersMatch sortFn mkID al jobOffer db.resourceOffers
              (runJobOffers doOffersMatch sortFn mkID al db.resourceOffers pre db).2).1
          ++ (runJobOffers doOffersMatch sortFn mkID al db.resourceOffers post
              (processJobOffer doOffersMatch sortFn mkID al jobOffer db.resourceOffers
                (runJobOffers doOffersMatch sortFn mkID al db.resourceOffers pre db).2).2).1) := by
  constructor
  · intro sortFn mkID al jobOffer resourceOffers s hsort hne
    cases hs : sortFn (processResourceOffers doOffersMatch al jobOffer resourceOffers s).1 with
    | nil =>
      have hperm := (hsort (processResourceOffers doOffersMatch al jobOffer
        resourceOffers s).1).1
      rw [hs] at hperm
      exact absurd hperm.symm.eq_nil hne
    | cons ch restSorted =>
      obtain ⟨hchmem, hchmin⟩ := sorted_head_min hsort hs
      refine ⟨ch, hchmem, hchmin, ?_⟩
      rw [processJO_eq_deal hne hs]
  · intro sortFn mkID db al pre jobOffer post hsplit
    show (runJobOffers doOffersMatch sortFn mkID al db.resourceOffers db.jobOffers db).1 = _
    rw [hsplit, runJO_append, runJO_cons]
    simp [List.append_assoc]

theorem claim_C1_witness :
    ∃ winner,
      winner ∈ (processResourceOffers doOffersMatch [("mod", "1.0")] versionedJob
        [midResourceOffer, wideResourceOffer]
        ⟨[midResourceOffer, wideResourceOffer], [versionedJob], []⟩).1
      ∧ (∀ c ∈ (processResourceOffers doOffersMatch [("mod", "1.0")] versionedJob
          [midResourceOffer, wideResourceOffer]
          ⟨[midResourceOffer, wideResourceOffer], [versionedJob], []⟩).1, priceLE winner c)
      ∧ (processJobOffer doOffersMatch goodSort mkDealID [("mod", "1.0")] versionedJob
          [midResourceOffer, wideResourceOffer]
          ⟨[midResourceOffer, wideResourceOffer], [versionedJob], []⟩).1
          = [GetDeal mkDealID versionedJob winner] :=
  claim_C1_amended.1 goodSort mkDealID [("mod", "1.0")] versionedJob
    [midResourceOffer, wideResourceOffer]
    ⟨[midResourceOffer, wideResourceOffer], [versionedJob], []⟩
    goodSort_conforms (by decide)

set_option maxHeartbeats 2000000 in
set_option maxRecDepth 10000 in
/-- C1 counterexample: a pass over thirteen compatible candidates whose two
cheapest offers, t00 then t01, are tied at price one, run with the
translation of the Go sort.Sort implementation itself (pdqsort), not a
contract-level stand-in. The candidate set in store order starts with t00;
on thirteen elements the partition step of pdqsort first swaps the pivot to
the front, displacing t00 into the middle behind t01, and the later stable
insertion passes keep that order, so the sorted head and the single formed
deal reference t01 although t00 appeared earlier in the store order. The
output of the sort at this input is nevertheless a price-ordered
permutation, recorded by the last two list conjuncts, so the minimum-price
part of the claim is untouched: only the input-order tie-break fails. -/
theorem claim_C1_counterexample :
    (processResourceOffers doOffersMatch [("mod", "1.0")] richJob
        thirteenStore.resourceOffers thirteenStore).1 = thirteenOffers
    ∧ (priceOffer "t00" 1).DefaultPricing.InstructionPrice
        = (priceOffer "t01" 1).DefaultPricing.InstructionPrice
    ∧ (priceOffer "t00" 1).ID ≠ (priceOffer "t01" 1).ID
    ∧ (∀ c ∈ thirteenOffers,
        (priceOffer "t00" 1).DefaultPricing.InstructionPrice
          ≤ c.DefaultPricing.InstructionPrice)
    ∧ (sortSortGo thirteenOffers).map ResourceOffer.ID
        = ["t01", "t00", "t10", "t02", "t03", "t04", "t05", "t07", "t08", "t06",
           "t09", "t12", "t11"]
    ∧ (sortSortGo thirteenOffers).Perm thirteenOffers
    ∧ (sortSortGo thirteenOffers).Pairwise priceLE
    ∧ (getMatchingDeals sortSortGo mkDealID thirteenStore [("mod", "1.0")]).1.map
        (fun d => d.ResourceOffer.ID) = ["t01"] :=
  ⟨by decide, by decide, by decide, by decide, by decide, by decide, by decide,
   by decide⟩

/-- C10: winning a deal does not remove a resource offer from the pass: on a
store with one resource offer and two compatible job offers, a single pass
forms two deals, both referencing that same resource offer. -/
theorem claim_C10 :
    (getMatchingDeals goodSort mkDealID doubleStore [("mod", "1.0")]).1.map
      (fun d => (d.JobOffer.ID, d.ResourceOffer.ID)) = [("j1", "ra"), ("j2", "ra")]
    ∧ (getMatchingDeals goodSort mkDealID doubleStore [("mod", "1.0")]).1.length = 2 :=
  ⟨by decide, by decide⟩
